import Mathlib

/-!
Verification of the marketing-consultant-agent conversation core.

The Python sources are shallowly embedded: messages become an inductive
type, the turn controller `agent_node` becomes a pure function whose
language-model calls are abstracted as explicit outcome parameters, and
the research tools become pure functions over pre-fetched page / provider
data.  Library behaviour that is not part of the repository (pydantic
JSON serialization, langgraph's prebuilt routing) is modelled from the
specification and marked as such in the doc comments.
-/

namespace MarketingAgent

/-- A requested tool invocation carried by an agent message
(langchain `AIMessage.tool_calls` entry). -/
structure ToolCall where
  name : String
  args : String
deriving DecidableEq, Repr

/-- One unit of dialogue: langchain `SystemMessage` / `HumanMessage` /
`AIMessage` / tool-result message.  An `AIMessage` carries an optional
name tag and a list of requested tool calls. -/
inductive Message where
  | system (content : String)
  | human (content : String)
  | ai (content : String) (name : Option String) (tool_calls : List ToolCall)
  | tool (content : String)
deriving DecidableEq, Repr

/-- The `.content` attribute common to all message classes. -/
def Message.content : Message → String
  | .system c => c
  | .human c => c
  | .ai c _ _ => c
  | .tool c => c

/-- The name tag of a message (`AIMessage.name`); non-agent messages carry none. -/
def Message.nameTag : Message → Option String
  | .ai _ n _ => n
  | _ => none

/-- The `.tool_calls` attribute of a message; empty for non-agent messages. -/
def Message.toolCalls : Message → List ToolCall
  | .ai _ _ t => t
  | _ => []

/-- True exactly on system messages. -/
def Message.isSystem : Message → Bool
  | .system _ => true
  | _ => false

/-- Python `str.lower()` (restricted to ASCII case mapping, which covers
every approval keyword). -/
def pyLower (s : String) : String :=
  String.mk (s.data.map Char.toLower)

/-- Whitespace characters stripped by Python `str.strip()`. -/
def isPySpace (c : Char) : Bool :=
  c = ' ' || c = '\t' || c = '\n' || c = '\r' || c = '\x0b' || c = '\x0c'

/-- Python `str.strip()`: drop leading and trailing whitespace. -/
def pyStrip (s : String) : String :=
  String.mk (((s.data.dropWhile isPySpace).reverse.dropWhile isPySpace).reverse)

/-- `finalize_keywords` from `agent_node.py`. -/
def finalize_keywords : List String :=
  ["looks good", "finalize it", "yes", "correct", "approve", "looks correct", "that's right"]

/-- The finalize-trigger detection of `agent_node` (`agent_node.py` lines 19-28):
more than two messages, last message human, second-to-last a plain agent
message without tool calls, and the lowercased stripped last human text
equal to or starting with an approval keyword. -/
def shouldFinalize (messages : List Message) : Bool :=
  if 2 < messages.length then
    match messages.getLast?, messages[messages.length - 2]? with
    | some (.human c), some (.ai _ _ tcs) =>
        let last_human_message := pyStrip (pyLower c)
        tcs.isEmpty &&
          (finalize_keywords.any (fun k => k == last_human_message) ||
           finalize_keywords.any (fun k => last_human_message.startsWith k))
    | _, _ => false
  else false

/-- The system-prompt prepend of `agent_node` (`agent_node.py` lines 13-17):
`if not messages or (messages and messages[0].content != SYSTEM_PROMPT)`
insert a `SystemMessage` at position 0 of the local copy.  The prompt text
is passed as a parameter `sp` (`SYSTEM_PROMPT` from `prompts.py`). -/
def ensureSystemPrompt (sp : String) (messages : List Message) : List Message :=
  match messages with
  | [] => [Message.system sp]
  | m :: _ => if m.content ≠ sp then Message.system sp :: messages else messages

/-! ## The structured plan schema (`models.py`) -/

/-- `BusinessOverview` from `models.py`. -/
structure BusinessOverview where
  industry : Option String
  products : Option (List String)
  target_audience : Option String
  existing_marketing : Option String
deriving DecidableEq, Repr

/-- `CompetitorInsight` from `models.py`. -/
structure CompetitorInsight where
  competitor_name : String
  ad_platforms : Option (List String)
  audience : Option String
  budget_estimate : Option String
deriving DecidableEq, Repr

/-- `AdCreative` from `models.py`. -/
structure AdCreative where
  platform : String
  ad_type : String
  creative : String
deriving DecidableEq, Repr

/-- `UserInputSummary` from `models.py`. -/
structure UserInputSummary where
  budget : Option String
  start_date : Option String
  expectations : Option String
deriving DecidableEq, Repr

/-- `MarketingMediaPlan` from `models.py`; the `Dict[str, int]` budget
allocation is modelled as an insertion-ordered association list. -/
structure MarketingMediaPlan where
  business_overview : Option BusinessOverview
  competitor_insights : Option (List CompetitorInsight)
  recommended_channels : Option (List String)
  budget_allocation : Option (List (String × Int))
  suggested_ad_creatives : Option (List AdCreative)
  user_input : Option UserInputSummary
  industry_trends_keywords : Option String
  online_presence_analysis : Option String
  timeline_suggestion : Option String
  data_source_notes : Option String
deriving DecidableEq, Repr

/-! ## JSON values and the pydantic-style pretty encoder

Modelled from the spec: pydantic's `model_dump_json(indent=2)` /
`model_validate_json` live outside this repository; the spec describes the
finalize content as a "text-serialized document (indented, human-readable)"
that decodes back to the same document.  We embed a JSON value type, the
two-space-indent pretty printer used for the plan document, and a JSON
parser, and prove the round trip. -/

/-- JSON values, restricted to the shapes a `MarketingMediaPlan` serializes
into (no booleans or floats occur in the schema). -/
inductive Json where
  | null
  | num (n : Int)
  | str (s : String)
  | arr (elements : List Json)
  | obj (members : List (String × Json))

/-- Lowercase hexadecimal digit for `\u00XX` escapes. -/
def hexDigitChar (n : Nat) : Char :=
  if n < 10 then Char.ofNat (48 + n) else Char.ofNat (87 + n)

/-- JSON string escaping: quote, backslash and control characters are
escaped (shorthand escapes for backspace, tab, newline, form feed and
carriage return; `\u00XX` for the remaining control characters). -/
def escapeChar (c : Char) : List Char :=
  if c = '"' then ['\\', '"']
  else if c = '\\' then ['\\', '\\']
  else if c = '\x08' then ['\\', 'b']
  else if c = '\x09' then ['\\', 't']
  else if c = '\x0a' then ['\\', 'n']
  else if c = '\x0c' then ['\\', 'f']
  else if c = '\x0d' then ['\\', 'r']
  else if c.toNat < 32 then
    ['\\', 'u', '0', '0', hexDigitChar (c.toNat / 16), hexDigitChar (c.toNat % 16)]
  else [c]

/-- Escape every character of a string body. -/
def escapeChars : List Char → List Char
  | [] => []
  | c :: cs => escapeChar c ++ escapeChars cs

/-- A JSON string literal: quote, escaped body, quote. -/
def quoteChars (s : String) : List Char :=
  '"' :: (escapeChars s.data ++ ['"'])

/-- Decimal digit characters of a natural number, most significant first. -/
def natChars (n : Nat) : List Char :=
  ((Nat.digits 10 n).map Nat.digitChar).reverse

/-- Decimal rendering of a natural number (`0` renders as `"0"`). -/
def natCharsZ (n : Nat) : List Char :=
  if n = 0 then ['0'] else natChars n

/-- Decimal rendering of an integer. -/
def intChars (n : Int) : List Char :=
  if n < 0 then '-' :: natCharsZ n.natAbs else natCharsZ n.natAbs

/-- Two-space indentation at nesting level `lvl`. -/
def indentChars (lvl : Nat) : List Char :=
  List.replicate (2 * lvl) ' '

mutual

/-- Pretty-print a JSON value at nesting level `lvl` with two-space
indentation, the layout `model_dump_json(indent=2)` produces: empty
containers are compact, members of non-empty containers sit one per line,
object keys are followed by a colon and a space. -/
def renderJson : Nat → Json → List Char
  | _, .null => ['n', 'u', 'l', 'l']
  | _, .num n => intChars n
  | _, .str s => quoteChars s
  | _, .arr [] => ['[', ']']
  | lvl, .arr (x :: xs) =>
      '[' :: '\n' :: (indentChars (lvl + 1) ++ renderJson (lvl + 1) x ++
        renderArrTail (lvl + 1) xs ++ '\n' :: (indentChars lvl ++ [']']))
  | _, .obj [] => ['{', '}']
  | lvl, .obj ((k, v) :: kvs) =>
      '{' :: '\n' :: (indentChars (lvl + 1) ++ quoteChars k ++ ':' :: ' ' ::
        (renderJson (lvl + 1) v ++ renderObjTail (lvl + 1) kvs ++
         '\n' :: (indentChars lvl ++ ['}'])))

/-- Remaining array elements, each preceded by a comma, newline and indent. -/
def renderArrTail : Nat → List Json → List Char
  | _, [] => []
  | lvl, x :: xs =>
      ',' :: '\n' :: (indentChars lvl ++ renderJson lvl x ++ renderArrTail lvl xs)

/-- Remaining object members, each preceded by a comma, newline and indent. -/
def renderObjTail : Nat → List (String × Json) → List Char
  | _, [] => []
  | lvl, (k, v) :: kvs =>
      ',' :: '\n' :: (indentChars lvl ++ quoteChars k ++ ':' :: ' ' ::
        (renderJson lvl v ++ renderObjTail lvl kvs))

end

/-- Encode an optional value, `None` becoming JSON `null`. -/
def optJson (f : α → Json) : Option α → Json
  | none => Json.null
  | some a => f a

/-- Encode a list of strings. -/
def strListJson (xs : List String) : Json :=
  Json.arr (xs.map Json.str)

/-- Field order follows the declaration order in `models.py`. -/
def toJsonBusinessOverview (b : BusinessOverview) : Json :=
  Json.obj [("industry", optJson Json.str b.industry),
            ("products", optJson strListJson b.products),
            ("target_audience", optJson Json.str b.target_audience),
            ("existing_marketing", optJson Json.str b.existing_marketing)]

/-- Field order follows the declaration order in `models.py`. -/
def toJsonCompetitorInsight (c : CompetitorInsight) : Json :=
  Json.obj [("competitor_name", Json.str c.competitor_name),
            ("ad_platforms", optJson strListJson c.ad_platforms),
            ("audience", optJson Json.str c.audience),
            ("budget_estimate", optJson Json.str c.budget_estimate)]

/-- Field order follows the declaration order in `models.py`. -/
def toJsonAdCreative (a : AdCreative) : Json :=
  Json.obj [("platform", Json.str a.platform),
            ("ad_type", Json.str a.ad_type),
            ("creative", Json.str a.creative)]

/-- Field order follows the declaration order in `models.py`. -/
def toJsonUserInputSummary (u : UserInputSummary) : Json :=
  Json.obj [("budget", optJson Json.str u.budget),
            ("start_date", optJson Json.str u.start_date),
            ("expectations", optJson Json.str u.expectations)]

/-- The budget allocation dictionary: keys in insertion order, integer values. -/
def toJsonBudget (kvs : List (String × Int)) : Json :=
  Json.obj (kvs.map (fun kv => (kv.1, Json.num kv.2)))

/-- JSON document of a `MarketingMediaPlan`, fields in declaration order,
absent fields serialized as `null` (pydantic's default `model_dump_json`). -/
def toJsonPlan (p : MarketingMediaPlan) : Json :=
  Json.obj [("business_overview", optJson toJsonBusinessOverview p.business_overview),
            ("competitor_insights", optJson (fun l => Json.arr (l.map toJsonCompetitorInsight)) p.competitor_insights),
            ("recommended_channels", optJson strListJson p.recommended_channels),
            ("budget_allocation", optJson toJsonBudget p.budget_allocation),
            ("suggested_ad_creatives", optJson (fun l => Json.arr (l.map toJsonAdCreative)) p.suggested_ad_creatives),
            ("user_input", optJson toJsonUserInputSummary p.user_input),
            ("industry_trends_keywords", optJson Json.str p.industry_trends_keywords),
            ("online_presence_analysis", optJson Json.str p.online_presence_analysis),
            ("timeline_suggestion", optJson Json.str p.timeline_suggestion),
            ("data_source_notes", optJson Json.str p.data_source_notes)]

/-- `model_dump_json(indent=2)` of a plan: the pretty-printed document. -/
def model_dump_json (p : MarketingMediaPlan) : String :=
  String.mk (renderJson 0 (toJsonPlan p))

/-! ## JSON parser (the decoding half of `model_validate_json`) -/

/-- JSON insignificant whitespace. -/
def isWsChar (c : Char) : Bool :=
  c = ' ' || c = '\t' || c = '\n' || c = '\r'

/-- Skip insignificant whitespace. -/
def skipWs (cs : List Char) : List Char :=
  cs.dropWhile isWsChar

/-- Numeric value of a hexadecimal digit character. -/
def hexVal (c : Char) : Option Nat :=
  if '0' ≤ c ∧ c ≤ '9' then some (c.toNat - 48)
  else if 'a' ≤ c ∧ c ≤ 'f' then some (c.toNat - 87)
  else if 'A' ≤ c ∧ c ≤ 'F' then some (c.toNat - 55)
  else none

/-- Decode a single-character escape shorthand. -/
def unescapeChar (e : Char) : Option Char :=
  if e = '"' then some '"'
  else if e = '\\' then some '\\'
  else if e = '/' then some '/'
  else if e = 'b' then some '\x08'
  else if e = 'f' then some '\x0c'
  else if e = 'n' then some '\x0a'
  else if e = 'r' then some '\x0d'
  else if e = 't' then some '\x09'
  else none

/-- Parse the body of a JSON string literal after the opening quote; returns
the decoded characters and the remainder after the closing quote. -/
def parseStringBody : List Char → Option (List Char × List Char)
  | [] => none
  | '"' :: rest => some ([], rest)
  | '\\' :: 'u' :: h1 :: h2 :: h3 :: h4 :: rest =>
      match hexVal h1, hexVal h2, hexVal h3, hexVal h4 with
      | some a, some b, some c, some d =>
          (fun pr => (Char.ofNat (((a * 16 + b) * 16 + c) * 16 + d) :: pr.1, pr.2)) <$>
            parseStringBody rest
      | _, _, _, _ => none
  | '\\' :: e :: rest =>
      match unescapeChar e with
      | some u => (fun pr => (u :: pr.1, pr.2)) <$> parseStringBody rest
      | none => none
  | c :: rest => (fun pr => (c :: pr.1, pr.2)) <$> parseStringBody rest

/-- Value of a decimal digit character. -/
def digitVal (c : Char) : Nat :=
  c.toNat - 48

/-- Number denoted by a run of decimal digit characters. -/
def natFromDigits (ds : List Char) : Nat :=
  ds.foldl (fun a c => a * 10 + digitVal c) 0

mutual

/-- Recursive-descent JSON parser with explicit fuel; accepts the grammar
the pretty printer emits (null, integers, strings, arrays, objects) and is
whitespace tolerant. -/
def parseValue : Nat → List Char → Option (Json × List Char)
  | 0, _ => none
  | fuel + 1, cs =>
    match skipWs cs with
    | [] => none
    | c :: rest => parseValueHead fuel c rest
termination_by fuel _ => 8 * fuel

/-- Dispatch on the first significant character of a value. -/
def parseValueHead (fuel : Nat) (c : Char) (rest : List Char) : Option (Json × List Char) :=
  if c = '"' then
    (fun pr => (Json.str (String.mk pr.1), pr.2)) <$> parseStringBody rest
  else if c = '[' then
    if (skipWs rest).head? = some ']' then some (Json.arr [], (skipWs rest).tail)
    else (fun pr => (Json.arr pr.1, pr.2)) <$> parseArrItems fuel (skipWs rest)
  else if c = '{' then
    if (skipWs rest).head? = some '}' then some (Json.obj [], (skipWs rest).tail)
    else (fun pr => (Json.obj pr.1, pr.2)) <$> parseObjMembers fuel (skipWs rest)
  else if c = 'n' then
    match rest with
    | 'u' :: 'l' :: 'l' :: r => some (Json.null, r)
    | _ => none
  else if c = '-' then
    match rest.takeWhile Char.isDigit with
    | [] => none
    | ds => some (Json.num (-(Int.ofNat (natFromDigits ds))), rest.dropWhile Char.isDigit)
  else if c.isDigit then
    some (Json.num (Int.ofNat (natFromDigits ((c :: rest).takeWhile Char.isDigit))),
          (c :: rest).dropWhile Char.isDigit)
  else none
termination_by 8 * fuel + 7

/-- Parse one or more comma-separated array elements up to the closing
bracket. -/
def parseArrItems : Nat → List Char → Option (List Json × List Char)
  | 0, _ => none
  | fuel + 1, cs =>
    match parseValue fuel cs with
    | none => none
    | some (j, rest) => parseArrItemsAfter fuel j rest
termination_by fuel _ => 8 * fuel

/-- Continue an array after one parsed element: a comma demands further
elements, a closing bracket ends the array. -/
def parseArrItemsAfter (fuel : Nat) (j : Json) (rest : List Char) :
    Option (List Json × List Char) :=
  match skipWs rest with
  | ',' :: r => (fun pr => (j :: pr.1, pr.2)) <$> parseArrItems fuel r
  | ']' :: r => some ([j], r)
  | _ => none
termination_by 8 * fuel + 1

/-- Parse one or more comma-separated object members up to the closing
brace. -/
def parseObjMembers : Nat → List Char → Option (List (String × Json) × List Char)
  | 0, _ => none
  | fuel + 1, cs =>
    match skipWs cs with
    | '"' :: r => parseObjKey fuel r
    | _ => none
termination_by fuel _ => 8 * fuel

/-- Parse the key string of an object member after its opening quote. -/
def parseObjKey (fuel : Nat) (r : List Char) :
    Option (List (String × Json) × List Char) :=
  match parseStringBody r with
  | none => none
  | some (k, r2) => parseObjAfterKey fuel k r2
termination_by 8 * fuel + 4

/-- Continue an object member after its key: expect a colon, then a value. -/
def parseObjAfterKey (fuel : Nat) (k : List Char) (r2 : List Char) :
    Option (List (String × Json) × List Char) :=
  match skipWs r2 with
  | ':' :: r3 => parseObjAfterColon fuel k r3
  | _ => none
termination_by 8 * fuel + 3

/-- Parse the value of an object member after the colon. -/
def parseObjAfterColon (fuel : Nat) (k : List Char) (r3 : List Char) :
    Option (List (String × Json) × List Char) :=
  match parseValue fuel r3 with
  | none => none
  | some (v, r4) => parseObjAfterValue fuel k v r4
termination_by 8 * fuel + 2

/-- Continue an object after one complete member: a comma demands further
members, a closing brace ends the object. -/
def parseObjAfterValue (fuel : Nat) (k : List Char) (v : Json) (r4 : List Char) :
    Option (List (String × Json) × List Char) :=
  match skipWs r4 with
  | ',' :: r5 =>
      (fun pr => ((String.mk k, v) :: pr.1, pr.2)) <$> parseObjMembers fuel r5
  | '}' :: r5 => some ([(String.mk k, v)], r5)
  | _ => none
termination_by 8 * fuel + 1

end

/-- Parse a complete JSON document: one value followed only by whitespace. -/
def parseJsonChars (cs : List Char) : Option Json :=
  match parseValue (cs.length + 1) cs with
  | some (j, rest) => if (skipWs rest).isEmpty then some j else none
  | none => none

/-! ## Plan decoders (the validating half of `model_validate_json`) -/

/-- Decode a JSON string. -/
def decodeStr : Json → Option String
  | .str s => some s
  | _ => none

/-- Decode an optional field: `null` decodes to `None`. -/
def decodeOpt (f : Json → Option α) : Json → Option (Option α)
  | .null => some none
  | j => (f j).map some

/-- Decode each element of a list, failing if any element fails. -/
def decodeList (f : Json → Option α) : List Json → Option (List α)
  | [] => some []
  | j :: js =>
    match f j, decodeList f js with
    | some a, some as => some (a :: as)
    | _, _ => none

/-- Decode a JSON array of strings. -/
def decodeStrList : Json → Option (List String)
  | .arr xs => decodeList decodeStr xs
  | _ => none

/-- Decode a `BusinessOverview` object. -/
def decodeBusinessOverview : Json → Option BusinessOverview
  | .obj [("industry", j1), ("products", j2), ("target_audience", j3),
          ("existing_marketing", j4)] =>
    match decodeOpt decodeStr j1, decodeOpt decodeStrList j2,
          decodeOpt decodeStr j3, decodeOpt decodeStr j4 with
    | some a, some b, some c, some d => some ⟨a, b, c, d⟩
    | _, _, _, _ => none
  | _ => none

/-- Decode a `CompetitorInsight` object. -/
def decodeCompetitorInsight : Json → Option CompetitorInsight
  | .obj [("competitor_name", j1), ("ad_platforms", j2), ("audience", j3),
          ("budget_estimate", j4)] =>
    match decodeStr j1, decodeOpt decodeStrList j2,
          decodeOpt decodeStr j3, decodeOpt decodeStr j4 with
    | some a, some b, some c, some d => some ⟨a, b, c, d⟩
    | _, _, _, _ => none
  | _ => none

/-- Decode an `AdCreative` object. -/
def decodeAdCreative : Json → Option AdCreative
  | .obj [("platform", j1), ("ad_type", j2), ("creative", j3)] =>
    match decodeStr j1, decodeStr j2, decodeStr j3 with
    | some a, some b, some c => some ⟨a, b, c⟩
    | _, _, _ => none
  | _ => none

/-- Decode a `UserInputSummary` object. -/
def decodeUserInputSummary : Json → Option UserInputSummary
  | .obj [("budget", j1), ("start_date", j2), ("expectations", j3)] =>
    match decodeOpt decodeStr j1, decodeOpt decodeStr j2, decodeOpt decodeStr j3 with
    | some a, some b, some c => some ⟨a, b, c⟩
    | _, _, _ => none
  | _ => none

/-- Decode the budget-allocation dictionary. -/
def decodeBudgetMembers : List (String × Json) → Option (List (String × Int))
  | [] => some []
  | (k, .num n) :: kvs => (fun l => (k, n) :: l) <$> decodeBudgetMembers kvs
  | _ => none

/-- Decode the budget allocation. -/
def decodeBudget : Json → Option (List (String × Int))
  | .obj kvs => decodeBudgetMembers kvs
  | _ => none

/-- Decode a full `MarketingMediaPlan` document. -/
def decodePlan : Json → Option MarketingMediaPlan
  | .obj [("business_overview", j1), ("competitor_insights", j2),
          ("recommended_channels", j3), ("budget_allocation", j4),
          ("suggested_ad_creatives", j5), ("user_input", j6),
          ("industry_trends_keywords", j7), ("online_presence_analysis", j8),
          ("timeline_suggestion", j9), ("data_source_notes", j10)] =>
    match decodeOpt decodeBusinessOverview j1,
          decodeOpt (fun j => match j with
            | .arr xs => decodeList decodeCompetitorInsight xs
            | _ => none) j2,
          decodeOpt decodeStrList j3,
          decodeOpt decodeBudget j4,
          decodeOpt (fun j => match j with
            | .arr xs => decodeList decodeAdCreative xs
            | _ => none) j5,
          decodeOpt decodeUserInputSummary j6,
          decodeOpt decodeStr j7, decodeOpt decodeStr j8,
          decodeOpt decodeStr j9, decodeOpt decodeStr j10 with
    | some f1, some f2, some f3, some f4, some f5, some f6, some f7, some f8,
      some f9, some f10 => some ⟨f1, f2, f3, f4, f5, f6, f7, f8, f9, f10⟩
    | _, _, _, _, _, _, _, _, _, _ => none
  | _ => none

/-- `model_validate_json`: parse the text and validate it into a plan. -/
def model_validate_json (s : String) : Option MarketingMediaPlan :=
  (parseJsonChars s.data).bind decodePlan

/-! ## The turn controller (`agent_node.py`) -/

/-- Outcome of `llm.with_structured_output(MarketingMediaPlan).ainvoke` on
the finalize path: either a `MarketingMediaPlan` instance, an object of a
different type, or a raised `ValidationError`, `json.JSONDecodeError` or
other exception. -/
inductive FinalizeOutcome where
  | plan (p : MarketingMediaPlan)
  | notPlan
  | validationError (e : String)
  | jsonDecodeError (e : String)
  | otherError (e : String)
deriving DecidableEq, Repr

/-- The `AIMessage` returned by `llm.bind_tools(tools).ainvoke` on the
continue path: free text plus any requested tool calls. -/
structure ContinueResponse where
  content : String
  tool_calls : List ToolCall
deriving DecidableEq, Repr

/-- The terminal plan message: content is the pretty-printed document,
tagged `name="FinalPlanOutput"`, no tool calls (`agent_node.py` line 39). -/
def finalPlanMessage (p : MarketingMediaPlan) : Message :=
  Message.ai (model_dump_json p) (some "FinalPlanOutput") []

/-- `agent_node` from `agent_node.py`: copy the state's messages, ensure the
system prompt `sp` heads the local copy, decide finalize vs continue, and
return the single-message update.  The two network calls are abstracted as
the explicit outcomes `finalize_llm` and `continue_llm`. -/
def agent_node (sp : String) (state_messages : List Message)
    (finalize_llm : FinalizeOutcome) (continue_llm : ContinueResponse) : List Message :=
  let messages := ensureSystemPrompt sp state_messages
  if shouldFinalize messages then
    match finalize_llm with
    | .plan p => [finalPlanMessage p]
    | .notPlan =>
        [Message.ai "Error: Could not produce final plan. Please confirm again." none []]
    | .validationError e =>
        [Message.ai ("Error finalizing plan structure: " ++ e ++ ". Please confirm again.") none []]
    | .jsonDecodeError e =>
        [Message.ai ("Error finalizing plan structure: " ++ e ++ ". Please confirm again.") none []]
    | .otherError e =>
        [Message.ai ("Unexpected error: " ++ e ++ ". Please try confirming again.") none []]
  else
    [Message.ai continue_llm.content none continue_llm.tool_calls]

/-- `GraphState` accumulates messages by concatenation
(`messages: Annotated[Sequence, operator.add]` in `models.py`). -/
def applyUpdate (state_messages update : List Message) : List Message :=
  state_messages ++ update

/-! ## The conversation graph (`graph_builder.py`) -/

/-- Nodes of the compiled state graph: the two named nodes plus the
built-in start and end markers. -/
inductive GraphNode where
  | START
  | agent
  | tools
  | «END»
deriving DecidableEq, Repr

/-- Modelled from the spec: langgraph's prebuilt `tools_condition` is not
part of this repository; per the spec, "control routes to tools if the
agent requested a tool call, otherwise the turn ends". -/
def tools_condition (last : Message) : GraphNode :=
  if last.toolCalls.isEmpty then GraphNode.«END» else GraphNode.tools

/-- The wiring of `build_graph` (`graph_builder.py` lines 20-31): START
feeds "agent"; "agent" routes through `tools_condition` on the message it
just produced; "tools" always returns to "agent"; END has no successor. -/
def build_graph_route : GraphNode → Message → Option GraphNode
  | .START, _ => some .agent
  | .agent, last => some (tools_condition last)
  | .tools, _ => some .agent
  | .«END», _ => none

/-! ## The website analysis tool (`tools.py`) -/

/-- The content `analyze_business_website` extracts from a successfully
fetched page: title string, meta description content, raw `h1`/`h2`/`h3`
texts, raw paragraph texts and anchor `href` values, in document order. -/
structure ParsedPage where
  title : Option String
  meta_description : Option String
  headings : List String
  paragraphs : List String
  anchor_hrefs : List String
deriving DecidableEq, Repr

/-- Outcome of the HTTP fetch plus parse: a page, an `httpx.RequestError`
(after retries), or any other exception while parsing. -/
inductive FetchOutcome where
  | page (pg : ParsedPage)
  | requestError (e : String)
  | parseFailure (e : String)
deriving DecidableEq, Repr

/-- The JSON result dictionary `analyze_business_website` serializes:
fields absent from a path are `none`. -/
structure WebsiteAnalysisResult where
  url : String
  status : String
  error : Option String := none
  title : Option String := none
  meta_description : Option String := none
  headings_sample : Option (List String) := none
  text_content_sample : Option String := none
  detected_social_links : Option (List String) := none
  initial_guessed_industry : Option String := none
deriving DecidableEq, Repr

/-- The social-domain allow-list of `tools.py`. -/
def social_domains : List String :=
  ["facebook.com/", "twitter.com/", "instagram.com/", "linkedin.com/company/",
   "linkedin.com/in/", "youtube.com/channel/", "youtube.com/user/"]

/-- Python's substring test `needle in haystack`. -/
def strContains (haystack needle : String) : Bool :=
  decide (needle.data <:+: haystack.data)

/-- Python `" ".join(paragraphs)`. -/
def joinSpace : List String → String
  | [] => ""
  | [s] => s
  | s :: ss => s ++ " " ++ joinSpace ss

/-- Python slicing `s[:n]`. -/
def pyTake (n : Nat) (s : String) : String :=
  String.mk (s.data.take n)

/-- One iteration of the social-link collection loop of `tools.py` lines
67-75: keep an href when it contains an allow-listed domain, is not already
collected, and is longer than 15 characters. -/
def socialStep (social_links : List String) (href : String) : List String :=
  if social_domains.any (fun d => strContains href d) then
    if href ∉ social_links ∧ 15 < href.length then social_links ++ [href]
    else social_links
  else social_links

/-- The social-link collection loop over all anchors. -/
def collectSocialLinks (hrefs : List String) : List String :=
  hrefs.foldl socialStep []

/-- `analyze_business_website` from `tools.py`: the fetch/parse boundary is
abstracted as `outcome`; every failure becomes an error-status result. -/
def analyze_business_website (url : String) (outcome : FetchOutcome) : WebsiteAnalysisResult :=
  match outcome with
  | .page pg =>
      let title := match pg.title with | some t => t | none => "Not found"
      let meta_description := match pg.meta_description with | some d => d | none => "Not found"
      let headings := (pg.headings.take 10).map pyStrip
      let paragraphs := (pg.paragraphs.take 10).map pyStrip
      let text_content := joinSpace paragraphs
      let social_links := collectSocialLinks pg.anchor_hrefs
      let sample := pyTake 500 text_content ++ (if 500 < text_content.length then "..." else "")
      { url := url, status := "success",
        title := some title,
        meta_description := some meta_description,
        headings_sample := some (if headings.isEmpty then ["Not found"] else headings),
        text_content_sample := some (if sample = "" then "Not found" else sample),
        detected_social_links := some (if social_links.isEmpty then ["None found"] else social_links),
        initial_guessed_industry := some "Unknown - Requires LLM interpretation or user confirmation" }
  | .requestError e =>
      { url := url, status := "error",
        error := some ("Network/HTTP error analyzing " ++ url ++ ": " ++ e) }
  | .parseFailure e =>
      { url := url, status := "error",
        error := some ("Failed to parse content from " ++ url ++ ": " ++ e) }

/-! ## The Google-Trends tool (`tools.py`) -/

/-- What the pytrends/pandas boundary can yield inside `_fetch_trends_sync`:
library missing, the API call raising, an empty/invalid dataframe, or a
dataframe of per-column sample series (`none` entries are the non-numeric
cells `pd.to_numeric(..., errors="coerce")` turns into NaN and `dropna`
removes).  `unexpected` is any other exception reaching the outer handler. -/
inductive TrendsOutcome where
  | depsMissing
  | apiFailure (e : String)
  | emptyData
  | data (columns : List (String × List (Option ℚ)))
  | unexpected (e : String)
deriving DecidableEq, Repr

/-- The dictionary `_fetch_trends_sync` returns: either an error entry or
an interest-over-time summary (with an optional warning). -/
inductive FetchedTrendsData where
  | err (e : String)
  | summary (interest_over_time_summary : String) (warning : Option String)
deriving DecidableEq, Repr

/-- An exception escaping `_fetch_trends_sync` into the outer handler. -/
inductive RaisedError where
  | importErr (e : String)
  | otherErr (e : String)
deriving DecidableEq, Repr

/-- The trend-direction label of `tools.py` lines 148-153, comparing first
and last numeric sample with a 5% threshold.  Python floats are modelled
as exact rationals. -/
def trendChangeLabel (first_val last_val : ℚ) : String :=
  if last_val > first_val * 1.05 then "Increasing"
  else if first_val > last_val * 1.05 then "Decreasing"
  else "Stable"

/-- One decimal place rendering of a rational, modelling the `:.1f` float
format up to decimal rounding of the binary float: round half to even at
the first decimal. -/
def fmtOneDecimal (q : ℚ) : String :=
  let t : ℚ := q * 10
  let f : Int := ⌊t⌋
  let n : Int := if t - f > 1 / 2 then f + 1 else if t - f < 1 / 2 then f else if f % 2 = 0 then f else f + 1
  let sign := if n < 0 then "-" else ""
  sign ++ String.mk (natCharsZ (n.natAbs / 10)) ++ "." ++ String.mk (natCharsZ (n.natAbs % 10))

/-- The per-keyword summary text of `tools.py` lines 141-157. -/
def summaryPoint (numeric_series : List ℚ) : String :=
  match numeric_series.head?, numeric_series.getLast? with
  | some first_val, some last_val =>
      trendChangeLabel first_val last_val ++ " trend (relative score: first=" ++
        fmtOneDecimal first_val ++ ", last=" ++ fmtOneDecimal last_val ++ ")"
  | _, _ => "Insufficient numeric data"

/-- Python `repr` of the `summary_points` dict, built with explicit brace
and quote characters. -/
def reprPoints (points : List (String × String)) : String :=
  let items := points.map (fun kv =>
    String.mk [Char.ofNat 39] ++ kv.1 ++ String.mk [Char.ofNat 39] ++ ": " ++
    String.mk [Char.ofNat 39] ++ kv.2 ++ String.mk [Char.ofNat 39])
  let rec joinCS : List String → String
    | [] => ""
    | [s] => s
    | s :: ss => s ++ ", " ++ joinCS ss
  String.mk [Char.ofNat 123] ++ joinCS items ++ String.mk [Char.ofNat 125]

/-- `_fetch_trends_sync` from `tools.py` lines 108-159: raise `ImportError`
when the dependency is missing, turn an API failure into an `error` entry,
an empty dataframe into a no-data summary with a warning, keywords absent
from the columns into a no-data summary, and otherwise summarize each
resolved keyword's series. -/
def fetch_trends_sync (keywords : List String) (outcome : TrendsOutcome) :
    Except RaisedError FetchedTrendsData :=
  match outcome with
  | .depsMissing =>
      .error (.importErr "Pytrends library or pandas is not available. Install with: pip install pytrends pandas.")
  | .apiFailure e => .ok (.err ("Pytrends API error: " ++ e))
  | .emptyData =>
      .ok (.summary "No interest over time data found."
        (some "Received empty or invalid data from Pytrends."))
  | .unexpected e => .error (.otherErr e)
  | .data columns =>
      let cols := columns.filter (fun c => c.1 ≠ "isPartial")
      let processed_keywords := keywords.filter (fun kw => (cols.map Prod.fst).contains kw)
      if processed_keywords.isEmpty then
        .ok (.summary "No data found for the specified keywords in the dataframe." none)
      else
        let summary_points := processed_keywords.map (fun kw =>
          let numeric_series := ((cols.lookup kw).getD []).filterMap id
          (kw, summaryPoint numeric_series))
        .ok (.summary ("Interest over time summary: " ++ reprPoints summary_points) none)

/-- The JSON result dictionary of `google_trends_analyzer`. -/
structure TrendsResult where
  keywords : List String
  timeframe : String
  status : String
  error : Option String := none
  interest_over_time_summary : Option String := none
  warning : Option String := none
deriving DecidableEq, Repr

/-- `google_trends_analyzer` from `tools.py`: merge the fetched data into
the result dictionary; an `error` entry or a raised exception flips the
status to `"error"`. -/
def google_trends_analyzer (keywords : List String) (timeframe : String)
    (outcome : TrendsOutcome) : TrendsResult :=
  match fetch_trends_sync keywords outcome with
  | .ok (.err e) =>
      { keywords := keywords, timeframe := timeframe, status := "error", error := some e }
  | .ok (.summary s w) =>
      { keywords := keywords, timeframe := timeframe, status := "success",
        interest_over_time_summary := some s, warning := w }
  | .error (.importErr e) =>
      { keywords := keywords, timeframe := timeframe, status := "error", error := some e }
  | .error (.otherErr e) =>
      { keywords := keywords, timeframe := timeframe, status := "error",
        error := some ("Failed to get Google Trends data: " ++ e) }

mutual

/-- Fuel sufficient for `parseValue` on a rendered value. -/
def nfuel : Json → Nat
  | .null => 1
  | .num _ => 1
  | .str _ => 1
  | .arr [] => 1
  | .arr (x :: xs) => 1 + nfuelItems (x :: xs)
  | .obj [] => 1
  | .obj (kv :: kvs) => 1 + nfuelMembers (kv :: kvs)

/-- Fuel sufficient for `parseArrItems` on rendered array items. -/
def nfuelItems : List Json → Nat
  | [] => 0
  | x :: xs => 1 + max (nfuel x) (nfuelItems xs)

/-- Fuel sufficient for `parseObjMembers` on rendered object members. -/
def nfuelMembers : List (String × Json) → Nat
  | [] => 0
  | (_, v) :: kvs => 1 + max (nfuel v) (nfuelMembers kvs)

end

/-- A concrete plan with every optional field absent, as the structured
call may legitimately return. -/
def samplePlan : MarketingMediaPlan :=
  ⟨none, none, none, none, none, none, none, none, none, none⟩

/-! ## Theorems -/

/-! ### JSON round-trip infrastructure (for C3) -/

theorem hexVal_hexDigitChar (n : Nat) (h : n < 16) : hexVal (hexDigitChar n) = some n := by
  interval_cases n <;> decide

theorem parseStringBody_escape (s : List Char) (rest : List Char) :
    parseStringBody (escapeChars s ++ ('"' :: rest)) = some (s, rest) := by
  induction s with
  | nil => rfl
  | cons c cs ih =>
      show parseStringBody ((escapeChar c ++ escapeChars cs) ++ ('"' :: rest)) = _
      rw [List.append_assoc]
      unfold escapeChar
      by_cases h1 : c = '"'
      · subst h1; rw [if_pos rfl]; simp [parseStringBody, unescapeChar, ih]
      rw [if_neg h1]
      by_cases h2 : c = '\\'
      · subst h2; rw [if_pos rfl]; simp [parseStringBody, unescapeChar, ih]
      rw [if_neg h2]
      by_cases h3 : c = '\x08'
      · subst h3; rw [if_pos rfl]; simp [parseStringBody, unescapeChar, ih]
      rw [if_neg h3]
      by_cases h4 : c = '\x09'
      · subst h4; rw [if_pos rfl]; simp [parseStringBody, unescapeChar, ih]
      rw [if_neg h4]
      by_cases h5 : c = '\x0a'
      · subst h5; rw [if_pos rfl]; simp [parseStringBody, unescapeChar, ih]
      rw [if_neg h5]
      by_cases h6 : c = '\x0c'
      · subst h6; rw [if_pos rfl]; simp [parseStringBody, unescapeChar, ih]
      rw [if_neg h6]
      by_cases h7 : c = '\x0d'
      · subst h7; rw [if_pos rfl]; simp [parseStringBody, unescapeChar, ih]
      rw [if_neg h7]
      by_cases h8 : c.toNat < 32
      · rw [if_pos h8]
        have e1 : hexVal '0' = some 0 := by decide
        have e3 : hexVal (hexDigitChar (c.toNat / 16)) = some (c.toNat / 16) :=
          hexVal_hexDigitChar _ (by omega)
        have e4 : hexVal (hexDigitChar (c.toNat % 16)) = some (c.toNat % 16) :=
          hexVal_hexDigitChar _ (Nat.mod_lt _ (by norm_num))
        have harith : ((0 * 16 + 0) * 16 + c.toNat / 16) * 16 + c.toNat % 16 = c.toNat := by
          omega
        simp [parseStringBody, e1, e3, e4, ih, harith, Char.ofNat_toNat]
        rw [show c.toNat / 16 * 16 + c.toNat % 16 = c.toNat from by omega, Char.ofNat_toNat]
      · rw [if_neg h8]
        simp [parseStringBody, h1, h2, ih]


theorem skipWs_cons_of_ws (c : Char) (cs : List Char) (h : isWsChar c = true) :
    skipWs (c :: cs) = skipWs cs := by
  simp [skipWs, List.dropWhile, h]

theorem skipWs_append_of_ws (ws rest : List Char) (h : ∀ c ∈ ws, isWsChar c = true) :
    skipWs (ws ++ rest) = skipWs rest := by
  induction ws with
  | nil => rfl
  | cons c cs ih =>
      rw [List.cons_append, skipWs_cons_of_ws c _ (h c (by simp))]
      exact ih (fun x hx => h x (by simp [hx]))

theorem skipWs_cons_of_not_ws (c : Char) (cs : List Char) (h : isWsChar c = false) :
    skipWs (c :: cs) = c :: cs := by
  simp [skipWs, List.dropWhile, h]

theorem indentChars_ws (lvl : Nat) : ∀ c ∈ indentChars lvl, isWsChar c = true := by
  intro c hc
  have hcs : c = ' ' := List.eq_of_mem_replicate (by simpa [indentChars] using hc)
  subst hcs
  decide

theorem digitVal_digitChar (d : Nat) (h : d < 10) : digitVal (Nat.digitChar d) = d := by
  interval_cases d <;> decide

/-- The character facts needed to route a decimal digit through the parser
dispatch. -/
theorem digit_facts (c : Char) (hd : ∃ d, d < 10 ∧ c = Nat.digitChar d) :
    c.isDigit = true ∧ isWsChar c = false ∧ c ≠ '"' ∧ c ≠ '[' ∧ c ≠ '{' ∧
      c ≠ 'n' ∧ c ≠ '-' ∧ c ≠ ']' ∧ c ≠ '}' := by
  obtain ⟨d, hlt, rfl⟩ := hd
  interval_cases d <;> exact ⟨by decide, by decide, by decide, by decide, by decide,
    by decide, by decide, by decide, by decide⟩

theorem natCharsZ_digitChar (n : Nat) :
    ∀ c ∈ natCharsZ n, ∃ d, d < 10 ∧ c = Nat.digitChar d := by
  intro c hc
  unfold natCharsZ at hc
  by_cases h0 : n = 0
  · rw [if_pos h0] at hc
    simp only [List.mem_singleton] at hc
    exact ⟨0, by norm_num, by rw [hc]; rfl⟩
  · rw [if_neg h0] at hc
    unfold natChars at hc
    rw [List.mem_reverse] at hc
    obtain ⟨d, hd, rfl⟩ := List.mem_map.mp hc
    exact ⟨d, Nat.digits_lt_base (by norm_num) hd, rfl⟩

theorem natCharsZ_isDigit (n : Nat) : ∀ c ∈ natCharsZ n, c.isDigit = true :=
  fun c hc => (digit_facts c (natCharsZ_digitChar n c hc)).1

theorem natCharsZ_ne_nil (n : Nat) : natCharsZ n ≠ [] := by
  unfold natCharsZ
  by_cases h0 : n = 0
  · rw [if_pos h0]; simp
  · rw [if_neg h0]
    unfold natChars
    simp [Nat.digits_ne_nil_iff_ne_zero, h0]

theorem takeWhile_digits (ds rest : List Char)
    (hds : ∀ c ∈ ds, c.isDigit = true)
    (hrest : ∀ c, rest.head? = some c → c.isDigit = false) :
    (ds ++ rest).takeWhile Char.isDigit = ds ∧
    (ds ++ rest).dropWhile Char.isDigit = rest := by
  induction ds with
  | nil =>
      simp only [List.nil_append]
      cases rest with
      | nil => exact ⟨rfl, rfl⟩
      | cons r rs =>
          have : r.isDigit = false := hrest r rfl
          constructor
          · simp [List.takeWhile, this]
          · simp [List.dropWhile, this]
  | cons d ds ih =>
      have hd : d.isDigit = true := hds d (by simp)
      have ihh := ih (fun c hc => hds c (by simp [hc]))
      constructor
      · simp [List.takeWhile, hd, ihh.1]
      · simp [List.dropWhile, hd, ihh.2]

theorem natFromDigits_digits (ds : List Nat) (h : ∀ d ∈ ds, d < 10) :
    natFromDigits ((ds.map Nat.digitChar).reverse) = Nat.ofDigits 10 ds := by
  induction ds with
  | nil => rfl
  | cons d ds ih =>
      have hmem : ∀ x ∈ ds, x < 10 := fun x hx => h x (by simp [hx])
      rw [List.map_cons, List.reverse_cons]
      unfold natFromDigits
      rw [List.foldl_append]
      have : natFromDigits ((ds.map Nat.digitChar).reverse) = Nat.ofDigits 10 ds := ih hmem
      unfold natFromDigits at this
      rw [this]
      simp only [List.foldl_cons, List.foldl_nil]
      rw [digitVal_digitChar d (h d (by simp))]
      rw [Nat.ofDigits_cons]
      ring

theorem natFromDigits_natCharsZ (n : Nat) : natFromDigits (natCharsZ n) = n := by
  unfold natCharsZ
  by_cases h0 : n = 0
  · rw [if_pos h0, h0]; rfl
  · rw [if_neg h0]
    unfold natChars
    rw [natFromDigits_digits _ (fun d hd => Nat.digits_lt_base (by norm_num) hd)]
    exact Nat.ofDigits_digits 10 n

/-- Every rendered value starts with a character that is not whitespace,
not a closer, not a comma. -/
theorem renderJson_head (lvl : Nat) (j : Json) :
    ∃ c cs, renderJson lvl j = c :: cs ∧ isWsChar c = false ∧ c ≠ ']' ∧ c ≠ '}' := by
  have hgood : ∀ c : Char, c ∈ (['n', '"', '[', '{', '-'] : List Char) →
      isWsChar c = false ∧ c ≠ ']' ∧ c ≠ '}' := by decide
  cases j with
  | null => exact ⟨'n', _, rfl, hgood 'n' (by decide)⟩
  | str s => exact ⟨'"', _, rfl, hgood '"' (by decide)⟩
  | num n =>
      show ∃ c cs, intChars n = c :: cs ∧ _
      unfold intChars
      by_cases hn : n < 0
      · rw [if_pos hn]
        exact ⟨'-', _, rfl, hgood '-' (by decide)⟩
      · rw [if_neg hn]
        obtain ⟨c, cs, hc⟩ := List.exists_cons_of_ne_nil (natCharsZ_ne_nil n.natAbs)
        have hcm : c ∈ natCharsZ n.natAbs := by rw [hc]; simp
        have hf := digit_facts c (natCharsZ_digitChar _ c hcm)
        exact ⟨c, cs, hc, hf.2.1, hf.2.2.2.2.2.2.2.1, hf.2.2.2.2.2.2.2.2⟩
  | arr xs =>
      cases xs with
      | nil => exact ⟨'[', _, rfl, hgood '[' (by decide)⟩
      | cons x xs => exact ⟨'[', _, rfl, hgood '[' (by decide)⟩
  | obj kvs =>
      cases kvs with
      | nil => exact ⟨'{', _, rfl, hgood '{' (by decide)⟩
      | cons kv kvs =>
          obtain ⟨k, v⟩ := kv
          exact ⟨'{', _, rfl, hgood '{' (by decide)⟩

theorem nfuel_pos (j : Json) : 1 ≤ nfuel j := by
  cases j with
  | null => exact le_refl 1
  | num n => exact le_refl 1
  | str s => exact le_refl 1
  | arr xs => cases xs <;> simp [nfuel]
  | obj kvs =>
      cases kvs with
      | nil => simp [nfuel]
      | cons kv kvs => obtain ⟨k, v⟩ := kv; simp [nfuel]

theorem quoteChars_append (k : String) (X : List Char) :
    quoteChars k ++ X = '"' :: (escapeChars k.data ++ ('"' :: X)) := by
  rw [show quoteChars k = '"' :: (escapeChars k.data ++ ['"']) from rfl]
  simp only [List.cons_append, List.append_assoc, List.singleton_append, List.nil_append]

theorem renderArr_append (lvl : Nat) (x : Json) (xs : List Json) (rest : List Char) :
    renderJson lvl (Json.arr (x :: xs)) ++ rest =
      '[' :: ('\n' :: (indentChars (lvl + 1) ++ (renderJson (lvl + 1) x ++
        (renderArrTail (lvl + 1) xs ++ '\n' :: (indentChars lvl ++ (']' :: rest)))))) := by
  rw [show renderJson lvl (Json.arr (x :: xs)) =
    '[' :: '\n' :: (indentChars (lvl + 1) ++ renderJson (lvl + 1) x ++
      renderArrTail (lvl + 1) xs ++ '\n' :: (indentChars lvl ++ [']'])) from rfl]
  simp only [List.cons_append, List.append_assoc, List.singleton_append, List.nil_append]

theorem renderObj_append (lvl : Nat) (k : String) (v : Json) (kvs : List (String × Json))
    (rest : List Char) :
    renderJson lvl (Json.obj ((k, v) :: kvs)) ++ rest =
      '{' :: ('\n' :: (indentChars (lvl + 1) ++ (quoteChars k ++ ':' :: ' ' ::
        (renderJson (lvl + 1) v ++ (renderObjTail (lvl + 1) kvs ++
          '\n' :: (indentChars lvl ++ ('}' :: rest))))))) := by
  rw [show renderJson lvl (Json.obj ((k, v) :: kvs)) =
    '{' :: '\n' :: (indentChars (lvl + 1) ++ quoteChars k ++ ':' :: ' ' ::
      (renderJson (lvl + 1) v ++ renderObjTail (lvl + 1) kvs ++
       '\n' :: (indentChars lvl ++ ['}']))) from rfl]
  simp only [List.cons_append, List.append_assoc, List.singleton_append, List.nil_append]

theorem renderArrTail_append (lvl : Nat) (y : Json) (ys : List Json) (X : List Char) :
    renderArrTail lvl (y :: ys) ++ X =
      ',' :: ('\n' :: (indentChars lvl ++ (renderJson lvl y ++ (renderArrTail lvl ys ++ X)))) := by
  rw [show renderArrTail lvl (y :: ys) =
    ',' :: '\n' :: (indentChars lvl ++ renderJson lvl y ++ renderArrTail lvl ys) from rfl]
  simp only [List.cons_append, List.append_assoc, List.nil_append]

theorem renderObjTail_append (lvl : Nat) (k2 : String) (v2 : Json)
    (kvs2 : List (String × Json)) (X : List Char) :
    renderObjTail lvl ((k2, v2) :: kvs2) ++ X =
      ',' :: ('\n' :: (indentChars lvl ++ (quoteChars k2 ++ ':' :: ' ' ::
        (renderJson lvl v2 ++ (renderObjTail lvl kvs2 ++ X))))) := by
  rw [show renderObjTail lvl ((k2, v2) :: kvs2) =
    ',' :: '\n' :: (indentChars lvl ++ quoteChars k2 ++ ':' :: ' ' ::
      (renderJson lvl v2 ++ renderObjTail lvl kvs2)) from rfl]
  simp only [List.cons_append, List.append_assoc, List.nil_append]

mutual

theorem parseValue_render (j : Json) (lvl : Nat) (pre rest : List Char) (fuel : Nat)
    (hpre : ∀ c ∈ pre, isWsChar c = true)
    (hfuel : nfuel j ≤ fuel)
    (hrest : ∀ c, rest.head? = some c → c.isDigit = false) :
    parseValue fuel (pre ++ (renderJson lvl j ++ rest)) = some (j, rest) := by
  cases fuel with
  | zero => exact absurd hfuel (by have := nfuel_pos j; omega)
  | succ f =>
    simp only [parseValue]
    rw [skipWs_append_of_ws pre _ hpre]
    cases j with
    | null =>
        rw [show renderJson lvl Json.null ++ rest = 'n' :: 'u' :: 'l' :: 'l' :: rest from rfl]
        rw [skipWs_cons_of_not_ws 'n' _ (by decide)]
        show parseValueHead f 'n' ('u' :: 'l' :: 'l' :: rest) = _
        rw [parseValueHead.eq_def]
        simp
    | str s =>
        rw [show renderJson lvl (Json.str s) ++ rest =
          quoteChars s ++ rest from rfl, quoteChars_append]
        rw [skipWs_cons_of_not_ws '"' _ (by decide)]
        show parseValueHead f '"' (escapeChars s.data ++ ('"' :: rest)) = _
        rw [parseValueHead.eq_def]
        simp [parseStringBody_escape]
    | num n =>
        have tw := takeWhile_digits (natCharsZ n.natAbs) rest (natCharsZ_isDigit _) hrest
        obtain ⟨c, cs, hc⟩ := List.exists_cons_of_ne_nil (natCharsZ_ne_nil n.natAbs)
        have hcm : c ∈ natCharsZ n.natAbs := by rw [hc]; simp
        have hf := digit_facts c (natCharsZ_digitChar _ c hcm)
        rw [show renderJson lvl (Json.num n) = intChars n from rfl]
        unfold intChars
        by_cases hn : n < 0
        · rw [if_pos hn, List.cons_append]
          rw [skipWs_cons_of_not_ws '-' _ (by decide)]
          show parseValueHead f '-' (natCharsZ n.natAbs ++ rest) = _
          rw [parseValueHead.eq_def]
          rw [if_neg (by decide), if_neg (by decide), if_neg (by decide), if_neg (by decide),
            if_pos rfl]
          rw [tw.1, tw.2, hc]
          show some (Json.num (-(Int.ofNat (natFromDigits (c :: cs)))), rest) = _
          rw [← hc, natFromDigits_natCharsZ]
          rw [show -(Int.ofNat n.natAbs) = n from by rw [Int.ofNat_eq_coe]; omega]
        · rw [if_neg hn]
          rw [hc, List.cons_append]
          rw [skipWs_cons_of_not_ws c _ hf.2.1]
          show parseValueHead f c (cs ++ rest) = _
          rw [parseValueHead.eq_def]
          rw [if_neg hf.2.2.1, if_neg hf.2.2.2.1, if_neg hf.2.2.2.2.1, if_neg hf.2.2.2.2.2.1,
            if_neg hf.2.2.2.2.2.2.1, if_pos hf.1]
          rw [← List.cons_append, ← hc, tw.1, tw.2, natFromDigits_natCharsZ]
          rw [show Int.ofNat n.natAbs = n from by rw [Int.ofNat_eq_coe]; omega]
    | arr xs =>
        cases xs with
        | nil =>
            rw [show renderJson lvl (Json.arr []) ++ rest = '[' :: (']' :: rest) from rfl]
            rw [skipWs_cons_of_not_ws '[' _ (by decide)]
            show parseValueHead f '[' (']' :: rest) = _
            rw [parseValueHead.eq_def]
            rw [if_neg (by decide), if_pos rfl, skipWs_cons_of_not_ws ']' _ (by decide)]
            rw [if_pos (show ((']' :: rest).head? = some ']') from rfl)]
            rfl
        | cons x xs =>
            rw [renderArr_append]
            rw [skipWs_cons_of_not_ws '[' _ (by decide)]
            show parseValueHead f '['
              ('\n' :: (indentChars (lvl + 1) ++ (renderJson (lvl + 1) x ++
                (renderArrTail (lvl + 1) xs ++ '\n' :: (indentChars lvl ++ (']' :: rest)))))) = _
            rw [parseValueHead.eq_def]
            rw [if_neg (by decide), if_pos rfl]
            rw [skipWs_cons_of_ws '\n' _ (by decide),
              skipWs_append_of_ws _ _ (indentChars_ws (lvl + 1))]
            obtain ⟨c, cs, hcr, hcw, hcne1, hcne2⟩ := renderJson_head (lvl + 1) x
            rw [hcr, List.cons_append, skipWs_cons_of_not_ws c _ hcw]
            rw [if_neg (by simp [hcne1])]
            rw [← List.cons_append, ← hcr]
            have hitems := parseArrItems_render x xs (lvl + 1) [] (indentChars lvl) rest f
              (by intro c2 hc2; exact absurd hc2 (List.not_mem_nil c2))
              (indentChars_ws lvl)
              (by
                have h1 : 1 + nfuelItems (x :: xs) ≤ f + 1 := by
                  simpa [nfuel] using hfuel
                omega)
            rw [List.nil_append] at hitems
            rw [hitems]
            rfl
    | obj kvs =>
        cases kvs with
        | nil =>
            rw [show renderJson lvl (Json.obj []) ++ rest = '{' :: ('}' :: rest) from rfl]
            rw [skipWs_cons_of_not_ws '{' _ (by decide)]
            show parseValueHead f '{' ('}' :: rest) = _
            rw [parseValueHead.eq_def]
            rw [if_neg (by decide), if_neg (by decide), if_pos rfl,
              skipWs_cons_of_not_ws '}' _ (by decide)]
            rw [if_pos (show (('}' :: rest).head? = some '}') from rfl)]
            rfl
        | cons kv kvs =>
            obtain ⟨k, v⟩ := kv
            rw [renderObj_append]
            rw [skipWs_cons_of_not_ws '{' _ (by decide)]
            show parseValueHead f '{'
              ('\n' :: (indentChars (lvl + 1) ++ (quoteChars k ++ ':' :: ' ' ::
                (renderJson (lvl + 1) v ++ (renderObjTail (lvl + 1) kvs ++
                  '\n' :: (indentChars lvl ++ ('}' :: rest))))))) = _
            rw [parseValueHead.eq_def]
            rw [if_neg (by decide), if_neg (by decide), if_pos rfl]
            rw [skipWs_cons_of_ws '\n' _ (by decide),
              skipWs_append_of_ws _ _ (indentChars_ws (lvl + 1))]
            rw [quoteChars_append]
            rw [skipWs_cons_of_not_ws '"' _ (by decide)]
            rw [if_neg (by simp)]
            have hmem := parseObjMembers_render k v kvs (lvl + 1) [] (indentChars lvl) rest f
              (by intro c2 hc2; exact absurd hc2 (List.not_mem_nil c2))
              (indentChars_ws lvl)
              (by
                have h1 : 1 + nfuelMembers ((k, v) :: kvs) ≤ f + 1 := by
                  simpa [nfuel] using hfuel
                omega)
            rw [List.nil_append, quoteChars_append] at hmem
            rw [hmem]
            rfl
  termination_by fuel
  decreasing_by all_goals omega

theorem parseArrItems_render (x : Json) (xs : List Json) (lvl : Nat)
    (pre ind rest : List Char) (fuel : Nat)
    (hpre : ∀ c ∈ pre, isWsChar c = true)
    (hind : ∀ c ∈ ind, isWsChar c = true)
    (hfuel : nfuelItems (x :: xs) ≤ fuel) :
    parseArrItems fuel (pre ++ (renderJson lvl x ++
      (renderArrTail lvl xs ++ '\n' :: (ind ++ (']' :: rest))))) = some (x :: xs, rest) := by
  cases fuel with
  | zero =>
      exact absurd hfuel (by simp only [nfuelItems]; omega)
  | succ f =>
    simp only [parseArrItems]
    have hval := parseValue_render x lvl pre
      (renderArrTail lvl xs ++ '\n' :: (ind ++ (']' :: rest))) f hpre
      (by
        have h1 : 1 + max (nfuel x) (nfuelItems xs) ≤ f + 1 := by
          simpa [nfuelItems] using hfuel
        omega)
      (by
        intro c hcd
        cases xs with
        | nil => simp [renderArrTail] at hcd; rw [← hcd]; decide
        | cons y ys => rw [renderArrTail_append] at hcd; simp at hcd; rw [← hcd]; decide)
    rw [hval]
    show parseArrItemsAfter f x (renderArrTail lvl xs ++ '\n' :: (ind ++ (']' :: rest))) = _
    cases xs with
    | nil =>
        rw [parseArrItemsAfter.eq_def]
        rw [show renderArrTail lvl [] ++ '\n' :: (ind ++ (']' :: rest)) =
          '\n' :: (ind ++ (']' :: rest)) from rfl]
        rw [skipWs_cons_of_ws '\n' _ (by decide), skipWs_append_of_ws _ _ hind,
          skipWs_cons_of_not_ws ']' _ (by decide)]
        rfl
    | cons y ys =>
        rw [parseArrItemsAfter.eq_def]
        rw [renderArrTail_append]
        rw [skipWs_cons_of_not_ws ',' _ (by decide)]
        show (fun pr => (x :: pr.1, pr.2)) <$> parseArrItems f
          ('\n' :: (indentChars lvl ++ (renderJson lvl y ++
            (renderArrTail lvl ys ++ '\n' :: (ind ++ (']' :: rest)))))) = _
        have hrec := parseArrItems_render y ys lvl ('\n' :: indentChars lvl) ind rest f
          (by
            intro c hcw
            rcases List.mem_cons.mp hcw with rfl | hc2
            · decide
            · exact indentChars_ws lvl c hc2)
          hind
          (by
            have h1 : 1 + max (nfuel x) (nfuelItems (y :: ys)) ≤ f + 1 := by
              simpa [nfuelItems] using hfuel
            omega)
        rw [show ('\n' :: indentChars lvl) ++ (renderJson lvl y ++
            (renderArrTail lvl ys ++ '\n' :: (ind ++ (']' :: rest)))) =
          '\n' :: (indentChars lvl ++ (renderJson lvl y ++
            (renderArrTail lvl ys ++ '\n' :: (ind ++ (']' :: rest))))) from rfl] at hrec
        rw [hrec]
        rfl
  termination_by fuel
  decreasing_by all_goals omega

theorem parseObjMembers_render (k : String) (v : Json) (kvs : List (String × Json)) (lvl : Nat)
    (pre ind rest : List Char) (fuel : Nat)
    (hpre : ∀ c ∈ pre, isWsChar c = true)
    (hind : ∀ c ∈ ind, isWsChar c = true)
    (hfuel : nfuelMembers ((k, v) :: kvs) ≤ fuel) :
    parseObjMembers fuel (pre ++ (quoteChars k ++ ':' :: ' ' ::
      (renderJson lvl v ++ (renderObjTail lvl kvs ++ '\n' :: (ind ++ ('}' :: rest)))))) =
      some ((k, v) :: kvs, rest) := by
  cases fuel with
  | zero =>
      exact absurd hfuel (by simp only [nfuelMembers]; omega)
  | succ f =>
    simp only [parseObjMembers]
    rw [skipWs_append_of_ws pre _ hpre]
    rw [quoteChars_append]
    rw [skipWs_cons_of_not_ws '"' _ (by decide)]
    show parseObjKey f (escapeChars k.data ++ ('"' :: (':' :: ' ' ::
      (renderJson lvl v ++ (renderObjTail lvl kvs ++ '\n' :: (ind ++ ('}' :: rest))))))) = _
    rw [parseObjKey.eq_def, parseStringBody_escape]
    show parseObjAfterKey f k.data (':' :: ' ' ::
      (renderJson lvl v ++ (renderObjTail lvl kvs ++ '\n' :: (ind ++ ('}' :: rest))))) = _
    rw [parseObjAfterKey.eq_def]
    rw [skipWs_cons_of_not_ws ':' _ (by decide)]
    show parseObjAfterColon f k.data (' ' ::
      (renderJson lvl v ++ (renderObjTail lvl kvs ++ '\n' :: (ind ++ ('}' :: rest))))) = _
    rw [parseObjAfterColon.eq_def]
    have hval := parseValue_render v lvl [' ']
      (renderObjTail lvl kvs ++ '\n' :: (ind ++ ('}' :: rest))) f
      (by intro c hcw; simp at hcw; rw [hcw]; decide)
      (by
        have h1 : 1 + max (nfuel v) (nfuelMembers kvs) ≤ f + 1 := by
          simpa [nfuelMembers] using hfuel
        omega)
      (by
        intro c hcd
        cases kvs with
        | nil => simp [renderObjTail] at hcd; rw [← hcd]; decide
        | cons kv2 kvs2 =>
            obtain ⟨k2, v2⟩ := kv2
            rw [renderObjTail_append] at hcd; simp at hcd; rw [← hcd]; decide)
    rw [List.singleton_append] at hval
    rw [hval]
    show parseObjAfterValue f k.data v
      (renderObjTail lvl kvs ++ '\n' :: (ind ++ ('}' :: rest))) = _
    cases kvs with
    | nil =>
        rw [parseObjAfterValue.eq_def]
        rw [show renderObjTail lvl [] ++ '\n' :: (ind ++ ('}' :: rest)) =
          '\n' :: (ind ++ ('}' :: rest)) from rfl]
        rw [skipWs_cons_of_ws '\n' _ (by decide), skipWs_append_of_ws _ _ hind,
          skipWs_cons_of_not_ws '}' _ (by decide)]
        rfl
    | cons kv2 kvs2 =>
        obtain ⟨k2, v2⟩ := kv2
        rw [parseObjAfterValue.eq_def]
        rw [renderObjTail_append]
        rw [skipWs_cons_of_not_ws ',' _ (by decide)]
        show (fun pr => ((String.mk k.data, v) :: pr.1, pr.2)) <$> parseObjMembers f
          ('\n' :: (indentChars lvl ++ (quoteChars k2 ++ ':' :: ' ' ::
            (renderJson lvl v2 ++ (renderObjTail lvl kvs2 ++
              '\n' :: (ind ++ ('}' :: rest))))))) = _
        have hrec := parseObjMembers_render k2 v2 kvs2 lvl ('\n' :: indentChars lvl) ind rest f
          (by
            intro c hcw
            rcases List.mem_cons.mp hcw with rfl | hc2
            · decide
            · exact indentChars_ws lvl c hc2)
          hind
          (by
            have h1 : 1 + max (nfuel v) (nfuelMembers ((k2, v2) :: kvs2)) ≤ f + 1 := by
              simpa [nfuelMembers] using hfuel
            omega)
        rw [show ('\n' :: indentChars lvl) ++ (quoteChars k2 ++ ':' :: ' ' ::
            (renderJson lvl v2 ++ (renderObjTail lvl kvs2 ++
              '\n' :: (ind ++ ('}' :: rest))))) =
          '\n' :: (indentChars lvl ++ (quoteChars k2 ++ ':' :: ' ' ::
            (renderJson lvl v2 ++ (renderObjTail lvl kvs2 ++
              '\n' :: (ind ++ ('}' :: rest)))))) from rfl] at hrec
        rw [hrec]
        rfl
  termination_by fuel
  decreasing_by all_goals omega

end

theorem indentChars_length (lvl : Nat) : (indentChars lvl).length = 2 * lvl := by
  simp [indentChars]

theorem quoteChars_length (s : String) :
    (quoteChars s).length = (escapeChars s.data).length + 2 := by
  rw [show quoteChars s = '"' :: (escapeChars s.data ++ ['"']) from rfl]
  simp only [List.length_cons, List.length_append, List.length_nil]

theorem renderArr_cons_length (lvl : Nat) (x : Json) (xs : List Json) :
    (renderJson lvl (Json.arr (x :: xs))).length =
      (renderJson (lvl + 1) x).length + (renderArrTail (lvl + 1) xs).length +
        (indentChars (lvl + 1)).length + (indentChars lvl).length + 4 := by
  rw [show renderJson lvl (Json.arr (x :: xs)) =
    '[' :: '\n' :: (indentChars (lvl + 1) ++ renderJson (lvl + 1) x ++
      renderArrTail (lvl + 1) xs ++ '\n' :: (indentChars lvl ++ [']'])) from rfl]
  simp only [List.length_cons, List.length_append, List.length_nil]
  omega

theorem renderObj_cons_length (lvl : Nat) (k : String) (v : Json)
    (kvs : List (String × Json)) :
    (renderJson lvl (Json.obj ((k, v) :: kvs))).length =
      (renderJson (lvl + 1) v).length + (renderObjTail (lvl + 1) kvs).length +
        (indentChars (lvl + 1)).length + (indentChars lvl).length +
        (quoteChars k).length + 6 := by
  rw [show renderJson lvl (Json.obj ((k, v) :: kvs)) =
    '{' :: '\n' :: (indentChars (lvl + 1) ++ quoteChars k ++ ':' :: ' ' ::
      (renderJson (lvl + 1) v ++ renderObjTail (lvl + 1) kvs ++
       '\n' :: (indentChars lvl ++ ['}']))) from rfl]
  simp only [List.length_cons, List.length_append, List.length_nil]
  omega

theorem renderArrTail_cons_length (lvl : Nat) (x : Json) (xs : List Json) :
    (renderArrTail lvl (x :: xs)).length =
      (renderJson lvl x).length + (renderArrTail lvl xs).length +
        (indentChars lvl).length + 2 := by
  rw [show renderArrTail lvl (x :: xs) =
    ',' :: '\n' :: (indentChars lvl ++ renderJson lvl x ++ renderArrTail lvl xs) from rfl]
  simp only [List.length_cons, List.length_append, List.length_nil]
  omega

theorem renderObjTail_cons_length (lvl : Nat) (k : String) (v : Json)
    (kvs : List (String × Json)) :
    (renderObjTail lvl ((k, v) :: kvs)).length =
      (renderJson lvl v).length + (renderObjTail lvl kvs).length +
        (indentChars lvl).length + (quoteChars k).length + 4 := by
  rw [show renderObjTail lvl ((k, v) :: kvs) =
    ',' :: '\n' :: (indentChars lvl ++ quoteChars k ++ ':' :: ' ' ::
      (renderJson lvl v ++ renderObjTail lvl kvs)) from rfl]
  simp only [List.length_cons, List.length_append, List.length_nil]
  omega

theorem nfuel_le_aux (n : Nat) :
    (∀ j : Json, sizeOf j ≤ n → ∀ lvl, nfuel j ≤ (renderJson lvl j).length) ∧
    (∀ xs : List Json, sizeOf xs ≤ n →
      ∀ lvl, nfuelItems xs ≤ (renderArrTail lvl xs).length) ∧
    (∀ kvs : List (String × Json), sizeOf kvs ≤ n →
      ∀ lvl, nfuelMembers kvs ≤ (renderObjTail lvl kvs).length) := by
  induction n using Nat.strong_induction_on with
  | _ n ih =>
  refine ⟨?_, ?_, ?_⟩
  · intro j hj lvl
    cases j with
    | null =>
        simp only [nfuel]
        rw [show renderJson lvl Json.null = ['n', 'u', 'l', 'l'] from rfl]
        simp
    | num m =>
        simp only [nfuel]
        rw [show renderJson lvl (Json.num m) = intChars m from rfl]
        unfold intChars
        obtain ⟨c, cs, hc⟩ := List.exists_cons_of_ne_nil (natCharsZ_ne_nil m.natAbs)
        by_cases h : m < 0
        · rw [if_pos h, hc]; simp
        · rw [if_neg h, hc]; simp
    | str s =>
        simp only [nfuel]
        rw [show renderJson lvl (Json.str s) = quoteChars s from rfl, quoteChars_length]
        omega
    | arr xs =>
        cases xs with
        | nil =>
            simp only [nfuel]
            rw [show renderJson lvl (Json.arr []) = ['[', ']'] from rfl]
            simp
        | cons x xs =>
            have hsz : sizeOf (Json.arr (x :: xs)) = 1 + sizeOf (x :: xs) := by simp
            have hit := (ih (n - 1) (by omega)).2.1 (x :: xs) (by omega) (lvl + 1)
            rw [renderArrTail_cons_length] at hit
            simp only [nfuel]
            rw [renderArr_cons_length]
            omega
    | obj kvs =>
        cases kvs with
        | nil =>
            simp only [nfuel]
            rw [show renderJson lvl (Json.obj []) = ['{', '}'] from rfl]
            simp
        | cons kv kvs =>
            obtain ⟨k, v⟩ := kv
            have hsz : sizeOf (Json.obj ((k, v) :: kvs)) =
                1 + sizeOf ((k, v) :: kvs) := by simp
            have hit := (ih (n - 1) (by omega)).2.2 ((k, v) :: kvs) (by omega) (lvl + 1)
            rw [renderObjTail_cons_length] at hit
            simp only [nfuel]
            rw [renderObj_cons_length]
            omega
  · intro xs hxs lvl
    cases xs with
    | nil => simp [nfuelItems]
    | cons x xs =>
        have hsz : sizeOf (x :: xs) = 1 + sizeOf x + sizeOf xs := by simp
        have hx := (ih (n - 1) (by omega)).1 x (by omega) lvl
        have hxs2 := (ih (n - 1) (by omega)).2.1 xs (by omega) lvl
        have hmax := Nat.max_le.mpr
          ⟨hx.trans (Nat.le_add_right _ _), hxs2.trans (Nat.le_add_left _ _)⟩
        simp only [nfuelItems]
        rw [renderArrTail_cons_length]
        omega
  · intro kvs hkvs lvl
    cases kvs with
    | nil => simp [nfuelMembers]
    | cons kv kvs =>
        obtain ⟨k, v⟩ := kv
        have hsz : sizeOf ((k, v) :: kvs) = 1 + sizeOf (k, v) + sizeOf kvs := by simp
        have hsz2 : sizeOf ((k, v) : String × Json) = 1 + sizeOf k + sizeOf v := by simp
        have hv := (ih (n - 1) (by omega)).1 v (by omega) lvl
        have hkvs2 := (ih (n - 1) (by omega)).2.2 kvs (by omega) lvl
        have hmax := Nat.max_le.mpr
          ⟨hv.trans (Nat.le_add_right _ _), hkvs2.trans (Nat.le_add_left _ _)⟩
        simp only [nfuelMembers]
        rw [renderObjTail_cons_length]
        omega

theorem nfuel_le_renderJson (j : Json) (lvl : Nat) :
    nfuel j ≤ (renderJson lvl j).length :=
  (nfuel_le_aux (sizeOf j)).1 j (le_refl _) lvl

theorem parseJsonChars_render (j : Json) :
    parseJsonChars (renderJson 0 j) = some j := by
  have h := parseValue_render j 0 [] [] ((renderJson 0 j).length + 1)
    (fun c hc => absurd hc (List.not_mem_nil c))
    (by have := nfuel_le_renderJson j 0; omega)
    (fun c hc => Option.noConfusion hc)
  rw [List.nil_append, List.append_nil] at h
  unfold parseJsonChars
  rw [h]
  rfl

theorem decodeOpt_not_null (f : Json → Option α) (j : Json) (hj : j ≠ Json.null) :
    decodeOpt f j = (f j).map some := by
  cases j with
  | null => exact absurd rfl hj
  | num n => rfl
  | str s => rfl
  | arr l => rfl
  | obj l => rfl

theorem decodeOpt_optJson (f : Json → Option α) (g : α → Json)
    (hnull : ∀ a, g a ≠ Json.null) (hfa : ∀ a, f (g a) = some a) (o : Option α) :
    decodeOpt f (optJson g o) = some o := by
  cases o with
  | none => rfl
  | some a =>
      show decodeOpt f (g a) = some (some a)
      rw [decodeOpt_not_null f (g a) (hnull a), hfa a]
      rfl

theorem decodeList_map (f : Json → Option α) (g : α → Json)
    (hfa : ∀ a, f (g a) = some a) (l : List α) :
    decodeList f (l.map g) = some l := by
  induction l with
  | nil => rfl
  | cons a as ihl =>
      show (match f (g a), decodeList f (as.map g) with
        | some b, some bs => some (b :: bs)
        | _, _ => none) = some (a :: as)
      rw [hfa a, ihl]

theorem decodeStrList_round (l : List String) :
    decodeStrList (strListJson l) = some l := by
  show decodeList decodeStr (l.map Json.str) = some l
  exact decodeList_map decodeStr Json.str (fun s => rfl) l

theorem decodeOpt_str (o : Option String) :
    decodeOpt decodeStr (optJson Json.str o) = some o :=
  decodeOpt_optJson decodeStr Json.str (fun a h => Json.noConfusion h)
    (fun a => rfl) o

theorem decodeOpt_strList (o : Option (List String)) :
    decodeOpt decodeStrList (optJson strListJson o) = some o :=
  decodeOpt_optJson decodeStrList strListJson (fun a h => Json.noConfusion h)
    decodeStrList_round o

theorem decodeBusinessOverview_round (b : BusinessOverview) :
    decodeBusinessOverview (toJsonBusinessOverview b) = some b := by
  show (match decodeOpt decodeStr (optJson Json.str b.industry),
          decodeOpt decodeStrList (optJson strListJson b.products),
          decodeOpt decodeStr (optJson Json.str b.target_audience),
          decodeOpt decodeStr (optJson Json.str b.existing_marketing) with
    | some a, some b2, some c, some d => some ⟨a, b2, c, d⟩
    | _, _, _, _ => none) = some b
  rw [decodeOpt_str, decodeOpt_strList, decodeOpt_str, decodeOpt_str]

theorem decodeCompetitorInsight_round (c : CompetitorInsight) :
    decodeCompetitorInsight (toJsonCompetitorInsight c) = some c := by
  show (match decodeStr (Json.str c.competitor_name),
          decodeOpt decodeStrList (optJson strListJson c.ad_platforms),
          decodeOpt decodeStr (optJson Json.str c.audience),
          decodeOpt decodeStr (optJson Json.str c.budget_estimate) with
    | some a, some b, some c2, some d => some ⟨a, b, c2, d⟩
    | _, _, _, _ => none) = some c
  rw [decodeOpt_strList, decodeOpt_str, decodeOpt_str]
  rfl

theorem decodeAdCreative_round (a : AdCreative) :
    decodeAdCreative (toJsonAdCreative a) = some a := rfl

theorem decodeUserInputSummary_round (u : UserInputSummary) :
    decodeUserInputSummary (toJsonUserInputSummary u) = some u := by
  show (match decodeOpt decodeStr (optJson Json.str u.budget),
          decodeOpt decodeStr (optJson Json.str u.start_date),
          decodeOpt decodeStr (optJson Json.str u.expectations) with
    | some a, some b, some c => some ⟨a, b, c⟩
    | _, _, _ => none) = some u
  rw [decodeOpt_str, decodeOpt_str, decodeOpt_str]

theorem decodeBudgetMembers_round (kvs : List (String × Int)) :
    decodeBudgetMembers (kvs.map (fun kv => (kv.1, Json.num kv.2))) = some kvs := by
  induction kvs with
  | nil => rfl
  | cons kv kvs ihl =>
      obtain ⟨k, m⟩ := kv
      show (fun l => (k, m) :: l) <$>
        decodeBudgetMembers (kvs.map (fun kv => (kv.1, Json.num kv.2))) = _
      rw [ihl]
      rfl

theorem decodeBudget_round (kvs : List (String × Int)) :
    decodeBudget (toJsonBudget kvs) = some kvs :=
  decodeBudgetMembers_round kvs

theorem decodeOpt_bo (o : Option BusinessOverview) :
    decodeOpt decodeBusinessOverview (optJson toJsonBusinessOverview o) = some o :=
  decodeOpt_optJson decodeBusinessOverview toJsonBusinessOverview
    (fun a h => Json.noConfusion h) decodeBusinessOverview_round o

theorem decodeOpt_ciList (o : Option (List CompetitorInsight)) :
    decodeOpt (fun j => match j with
      | .arr xs => decodeList decodeCompetitorInsight xs
      | _ => none) (optJson (fun l => Json.arr (l.map toJsonCompetitorInsight)) o) =
      some o :=
  decodeOpt_optJson _ _ (fun a h => Json.noConfusion h)
    (fun l => decodeList_map decodeCompetitorInsight toJsonCompetitorInsight
      decodeCompetitorInsight_round l) o

theorem decodeOpt_budget (o : Option (List (String × Int))) :
    decodeOpt decodeBudget (optJson toJsonBudget o) = some o :=
  decodeOpt_optJson decodeBudget toJsonBudget (fun a h => Json.noConfusion h)
    decodeBudget_round o

theorem decodeOpt_acList (o : Option (List AdCreative)) :
    decodeOpt (fun j => match j with
      | .arr xs => decodeList decodeAdCreative xs
      | _ => none) (optJson (fun l => Json.arr (l.map toJsonAdCreative)) o) = some o :=
  decodeOpt_optJson _ _ (fun a h => Json.noConfusion h)
    (fun l => decodeList_map decodeAdCreative toJsonAdCreative
      decodeAdCreative_round l) o

theorem decodeOpt_uis (o : Option UserInputSummary) :
    decodeOpt decodeUserInputSummary (optJson toJsonUserInputSummary o) = some o :=
  decodeOpt_optJson decodeUserInputSummary toJsonUserInputSummary
    (fun a h => Json.noConfusion h) decodeUserInputSummary_round o

theorem decodePlan_toJsonPlan (p : MarketingMediaPlan) :
    decodePlan (toJsonPlan p) = some p := by
  show (match decodeOpt decodeBusinessOverview
          (optJson toJsonBusinessOverview p.business_overview),
        decodeOpt (fun j => match j with
          | .arr xs => decodeList decodeCompetitorInsight xs
          | _ => none)
          (optJson (fun l => Json.arr (l.map toJsonCompetitorInsight))
            p.competitor_insights),
        decodeOpt decodeStrList (optJson strListJson p.recommended_channels),
        decodeOpt decodeBudget (optJson toJsonBudget p.budget_allocation),
        decodeOpt (fun j => match j with
          | .arr xs => decodeList decodeAdCreative xs
          | _ => none)
          (optJson (fun l => Json.arr (l.map toJsonAdCreative))
            p.suggested_ad_creatives),
        decodeOpt decodeUserInputSummary (optJson toJsonUserInputSummary p.user_input),
        decodeOpt decodeStr (optJson Json.str p.industry_trends_keywords),
        decodeOpt decodeStr (optJson Json.str p.online_presence_analysis),
        decodeOpt decodeStr (optJson Json.str p.timeline_suggestion),
        decodeOpt decodeStr (optJson Json.str p.data_source_notes) with
    | some f1, some f2, some f3, some f4, some f5, some f6, some f7, some f8,
      some f9, some f10 => some ⟨f1, f2, f3, f4, f5, f6, f7, f8, f9, f10⟩
    | _, _, _, _, _, _, _, _, _, _ => none) = some p
  rw [decodeOpt_bo, decodeOpt_ciList, decodeOpt_strList, decodeOpt_budget,
    decodeOpt_acList, decodeOpt_uis, decodeOpt_str, decodeOpt_str, decodeOpt_str,
    decodeOpt_str]

theorem model_validate_round (p : MarketingMediaPlan) :
    model_validate_json (model_dump_json p) = some p := by
  unfold model_validate_json model_dump_json
  rw [show (String.mk (renderJson 0 (toJsonPlan p))).data =
    renderJson 0 (toJsonPlan p) from rfl]
  rw [parseJsonChars_render]
  show decodePlan (toJsonPlan p) = some p
  exact decodePlan_toJsonPlan p


/-- C4: a message sequence whose first entry does not carry the
system-prompt content (including the empty sequence) gets the system-prompt
message inserted exactly once at position 0; a sequence already beginning
with the system-prompt content is left unchanged; the prepend is
idempotent. -/
theorem claim_C4 (sp : String) (msgs : List Message) :
    ((msgs = [] ∨ ∃ m ms, msgs = m :: ms ∧ m.content ≠ sp) →
      ensureSystemPrompt sp msgs = Message.system sp :: msgs) ∧
    ((∃ m ms, msgs = m :: ms ∧ m.content = sp) → ensureSystemPrompt sp msgs = msgs) ∧
    ensureSystemPrompt sp (ensureSystemPrompt sp msgs) = ensureSystemPrompt sp msgs := by
  refine ⟨?_, ?_, ?_⟩
  · rintro (rfl | ⟨m, ms, rfl, hm⟩)
    · rfl
    · simp [ensureSystemPrompt, hm]
  · rintro ⟨m, ms, rfl, hm⟩
    simp [ensureSystemPrompt, hm]
  · cases msgs with
    | nil => simp [ensureSystemPrompt, Message.content]
    | cons m ms =>
      by_cases hm : m.content = sp
      · simp [ensureSystemPrompt, hm]
      · have h1 : ensureSystemPrompt sp (m :: ms) = Message.system sp :: m :: ms := by
          simp [ensureSystemPrompt, hm]
        rw [h1]
        simp [ensureSystemPrompt, Message.content]

/-- Witness for C4 at a concrete empty state. -/
theorem claim_C4_witness :
    ensureSystemPrompt "S" [] = [Message.system "S"] :=
  (claim_C4 "S" []).1 (Or.inl rfl)

/-- C1: the finalize path is taken if and only if the examined sequence has
more than two messages, its last message is human, its second-to-last is an
agent message without tool calls, and the lowercased stripped last human
text equals or starts with an approval keyword. -/
theorem claim_C1 (msgs : List Message) :
    shouldFinalize msgs = true ↔
      (2 < msgs.length ∧
       ∃ c c2 nm, msgs.getLast? = some (Message.human c) ∧
         msgs[msgs.length - 2]? = some (Message.ai c2 nm []) ∧
         ∃ k ∈ finalize_keywords,
           k = pyStrip (pyLower c) ∨ (pyStrip (pyLower c)).startsWith k) := by
  by_cases hlen : 2 < msgs.length
  · unfold shouldFinalize
    rw [if_pos hlen]
    rcases hlast : msgs.getLast? with _ | m1 <;>
      rcases hsec : msgs[msgs.length - 2]? with _ | m2
    · simp
    · simp
    · cases m1 <;> simp
    · cases m1 <;> cases m2 <;> try (simp [hlen]; done)
      rename_i c c2 nm tcs
      simp [hlen, List.any_eq_true, List.isEmpty_iff]
      rintro -
      constructor
      · rintro (hmem | ⟨x, hx, hq⟩)
        · exact ⟨_, hmem, Or.inl rfl⟩
        · exact ⟨x, hx, Or.inr hq⟩
      · rintro ⟨k, hk, rfl | hq⟩
        · exact Or.inl hk
        · exact Or.inr ⟨k, hk, hq⟩
  · unfold shouldFinalize
    rw [if_neg hlen]
    simp [hlen]

/-- Witness for C1 at a concrete finalizing conversation. -/
theorem claim_C1_witness :
    shouldFinalize [Message.system "S", Message.human "hi",
      Message.ai "draft" none [], Message.human "yes"] = true :=
  (claim_C1 _).mpr ⟨by decide, "yes", "draft", none, by decide, by decide,
    "yes", by decide, Or.inl (by decide)⟩

/-- C5: after an "agent" step control moves to "tools" exactly when the new
message requests a tool call and otherwise the turn ends; after "tools"
control always returns to "agent"; the finalize-tagged plan message carries
no tool calls, so it always ends the turn. -/
theorem claim_C5 :
    (∀ m : Message, build_graph_route GraphNode.agent m = some GraphNode.tools ↔
        m.toolCalls ≠ []) ∧
    (∀ m : Message, build_graph_route GraphNode.agent m = some GraphNode.«END» ↔
        m.toolCalls = []) ∧
    (∀ m : Message, build_graph_route GraphNode.tools m = some GraphNode.agent) ∧
    ∀ p : MarketingMediaPlan,
      (finalPlanMessage p).toolCalls = [] ∧
      build_graph_route GraphNode.agent (finalPlanMessage p) = some GraphNode.«END» := by
  refine ⟨fun m => ?_, fun m => ?_, fun m => rfl, fun p => ⟨rfl, rfl⟩⟩ <;>
    · simp only [build_graph_route, tools_condition]
      rcases h : m.toolCalls with _ | ⟨t, ts⟩ <;> simp [h]

/-- Witness for C5 at a concrete message. -/
theorem claim_C5_witness :
    build_graph_route GraphNode.tools (Message.human "hi") = some GraphNode.agent :=
  claim_C5.2.2.1 (Message.human "hi")

/-- C10: the controller returns an update of exactly one message, never the
system preamble itself, and the input sequence survives unmodified as the
prefix of the accumulated state; a state without the preamble stays without
it, so the prepend is re-done on every invocation. -/
theorem claim_C10 (sp : String) (msgs : List Message) (fo : FinalizeOutcome)
    (co : ContinueResponse) :
    (agent_node sp msgs fo co).length = 1 ∧
    (∀ m ∈ agent_node sp msgs fo co, m.isSystem = false) ∧
    (applyUpdate msgs (agent_node sp msgs fo co)).take msgs.length = msgs ∧
    ((∀ m ∈ msgs, m.isSystem = false) →
      ∀ m ∈ applyUpdate msgs (agent_node sp msgs fo co), m.isSystem = false) := by
  have hform : ∃ c nm tcs, agent_node sp msgs fo co = [Message.ai c nm tcs] := by
    unfold agent_node
    by_cases h : shouldFinalize (ensureSystemPrompt sp msgs) <;>
      cases fo <;> simp [h, finalPlanMessage]
  obtain ⟨c, nm, tcs, heq⟩ := hform
  rw [heq]
  refine ⟨rfl, ?_, ?_, ?_⟩
  · intro m hm
    simp only [List.mem_singleton] at hm
    subst hm; rfl
  · simp [applyUpdate, List.take_left]
  · intro hsys m hm
    rcases List.mem_append.mp hm with h | h
    · exact hsys m h
    · simp only [List.mem_singleton] at h
      subst h; rfl

/-- Witness for C10 at a concrete invocation. -/
theorem claim_C10_witness :
    (agent_node "S" [Message.human "hi"] FinalizeOutcome.notPlan ⟨"ok", []⟩).length = 1 :=
  (claim_C10 "S" [Message.human "hi"] FinalizeOutcome.notPlan ⟨"ok", []⟩).1

/-- C2: on the finalize path every non-plan outcome (wrong type, validation
or JSON-decoding error, any other exception) yields exactly one agent
message that is not tagged `FinalPlanOutput`, whose text explains the
failure and asks the user to reconfirm, and the conversation grows by
exactly one message. -/
theorem claim_C2 (sp : String) (msgs : List Message) (fo : FinalizeOutcome)
    (co : ContinueResponse)
    (hfin : shouldFinalize (ensureSystemPrompt sp msgs) = true)
    (hnp : ∀ p, fo ≠ FinalizeOutcome.plan p) :
    ∃ c, agent_node sp msgs fo co = [Message.ai c none []] ∧
      (Message.ai c none []).nameTag ≠ some "FinalPlanOutput" ∧
      (applyUpdate msgs (agent_node sp msgs fo co)).length = msgs.length + 1 ∧
      (fo = FinalizeOutcome.notPlan →
        c = "Error: Could not produce final plan. Please confirm again.") ∧
      (∀ e, fo = FinalizeOutcome.validationError e ∨ fo = FinalizeOutcome.jsonDecodeError e →
        c = "Error finalizing plan structure: " ++ e ++ ". Please confirm again.") ∧
      (∀ e, fo = FinalizeOutcome.otherError e →
        c = "Unexpected error: " ++ e ++ ". Please try confirming again.") := by
  cases fo with
  | plan p => exact absurd rfl (hnp p)
  | notPlan =>
      refine ⟨"Error: Could not produce final plan. Please confirm again.",
        ?_, by simp [Message.nameTag], ?_, fun _ => rfl, ?_, ?_⟩
      · simp [agent_node, hfin]
      · simp [agent_node, hfin, applyUpdate]
      · rintro e (h | h) <;> cases h
      · rintro e h; cases h
  | validationError e0 =>
      refine ⟨"Error finalizing plan structure: " ++ e0 ++ ". Please confirm again.",
        ?_, by simp [Message.nameTag], ?_, ?_, ?_, ?_⟩
      · simp [agent_node, hfin]
      · simp [agent_node, hfin, applyUpdate]
      · rintro h; cases h
      · rintro e (h | h) <;> cases h <;> rfl
      · rintro e h; cases h
  | jsonDecodeError e0 =>
      refine ⟨"Error finalizing plan structure: " ++ e0 ++ ". Please confirm again.",
        ?_, by simp [Message.nameTag], ?_, ?_, ?_, ?_⟩
      · simp [agent_node, hfin]
      · simp [agent_node, hfin, applyUpdate]
      · rintro h; cases h
      · rintro e (h | h) <;> cases h <;> rfl
      · rintro e h; cases h
  | otherError e0 =>
      refine ⟨"Unexpected error: " ++ e0 ++ ". Please try confirming again.",
        ?_, by simp [Message.nameTag], ?_, ?_, ?_, ?_⟩
      · simp [agent_node, hfin]
      · simp [agent_node, hfin, applyUpdate]
      · rintro h; cases h
      · rintro e (h | h) <;> cases h
      · rintro e h; cases h; rfl

/-- Witness for C2 at a concrete failed finalize. -/
theorem claim_C2_witness :
    ∃ c, agent_node "S" [Message.human "hi", Message.ai "draft" none [], Message.human "yes"]
        FinalizeOutcome.notPlan ⟨"x", []⟩ = [Message.ai c none []] ∧
      (Message.ai c none []).nameTag ≠ some "FinalPlanOutput" ∧
      (applyUpdate [Message.human "hi", Message.ai "draft" none [], Message.human "yes"]
        (agent_node "S" [Message.human "hi", Message.ai "draft" none [], Message.human "yes"]
          FinalizeOutcome.notPlan ⟨"x", []⟩)).length =
        [Message.human "hi", Message.ai "draft" none [], Message.human "yes"].length + 1 ∧
      (FinalizeOutcome.notPlan = FinalizeOutcome.notPlan →
        c = "Error: Could not produce final plan. Please confirm again.") ∧
      (∀ e, FinalizeOutcome.notPlan = FinalizeOutcome.validationError e ∨
          FinalizeOutcome.notPlan = FinalizeOutcome.jsonDecodeError e →
        c = "Error finalizing plan structure: " ++ e ++ ". Please confirm again.") ∧
      (∀ e, FinalizeOutcome.notPlan = FinalizeOutcome.otherError e →
        c = "Unexpected error: " ++ e ++ ". Please try confirming again.") :=
  claim_C2 "S" [Message.human "hi", Message.ai "draft" none [], Message.human "yes"]
    FinalizeOutcome.notPlan ⟨"x", []⟩ (by decide) (fun p h => by cases h)

/-- Accumulator membership survives the social-link fold. -/
theorem mem_foldl_socialStep (l : List String) (acc : List String) (a : String)
    (ha : a ∈ acc) : a ∈ l.foldl socialStep acc := by
  induction l generalizing acc with
  | nil => exact ha
  | cons h t ih =>
      apply ih
      unfold socialStep
      by_cases h1 : social_domains.any (fun d => strContains h d)
      · rw [if_pos h1]
        by_cases h2 : h ∉ acc ∧ 15 < h.length
        · rw [if_pos h2]; exact List.mem_append_left _ ha
        · rw [if_neg h2]; exact ha
      · rw [if_neg h1]; exact ha

/-- A qualifying href (domain match, length over 15) always ends up in the
collected social links. -/
theorem mem_collectSocialLinks (hrefs : List String) (href : String)
    (hm : href ∈ hrefs)
    (hdom : social_domains.any (fun d => strContains href d) = true)
    (hlen : 15 < href.length) : href ∈ collectSocialLinks hrefs := by
  suffices h : ∀ acc, href ∈ hrefs → href ∈ hrefs.foldl socialStep acc from h [] hm
  clear hm
  induction hrefs with
  | nil => intro acc hm; cases hm
  | cons h t ih =>
      intro acc hm
      rcases List.mem_cons.mp hm with rfl | hmt
      · rw [List.foldl_cons]
        apply mem_foldl_socialStep
        unfold socialStep
        rw [if_pos hdom]
        by_cases hin : href ∈ acc
        · rw [if_neg (by simp [hin])]; exact hin
        · rw [if_pos ⟨hin, hlen⟩]; exact List.mem_append_right _ (List.mem_singleton.mpr rfl)
      · rw [List.foldl_cons]
        exact ih _ hmt

/-- The social-link fold preserves freedom from duplicates. -/
theorem nodup_foldl_socialStep (l : List String) (acc : List String)
    (h : acc.Nodup) : (l.foldl socialStep acc).Nodup := by
  induction l generalizing acc with
  | nil => exact h
  | cons x t ih =>
      apply ih
      unfold socialStep
      by_cases h1 : social_domains.any (fun d => strContains x d)
      · rw [if_pos h1]
        by_cases h2 : x ∉ acc ∧ 15 < x.length
        · rw [if_pos h2]
          rw [List.nodup_append]
          exact ⟨h, List.nodup_singleton x, fun a ha hax => h2.1 (by
            simp only [List.mem_singleton] at hax
            subst hax; exact ha)⟩
        · rw [if_neg h2]; exact h
      · rw [if_neg h1]; exact h

/-- C7 as written is false: an href containing an allow-listed domain but
no longer than 15 characters is dropped by the loop's length filter, so it
never appears in the detected social links. -/
theorem claim_C7_counterexample :
    social_domains.any (fun d => strContains "facebook.com/ab" d) = true ∧
    "facebook.com/ab" ∈ ["facebook.com/ab"] ∧
    (analyze_business_website "u"
      (FetchOutcome.page ⟨none, none, [], [], ["facebook.com/ab"]⟩)).detected_social_links =
      some ["None found"] ∧
    "facebook.com/ab" ∉ ["None found"] := by decide

/-- C7 amended: every anchor href that contains an allow-listed social
domain and is longer than 15 characters appears in the detected social
links of the success result, each distinct href at most once. -/
theorem claim_C7 (url : String) (pg : ParsedPage) (href : String)
    (hm : href ∈ pg.anchor_hrefs)
    (hdom : social_domains.any (fun d => strContains href d) = true)
    (hlen : 15 < href.length) :
    ∃ l, (analyze_business_website url (FetchOutcome.page pg)).detected_social_links = some l ∧
      href ∈ l ∧ l.Nodup := by
  have hmem : href ∈ collectSocialLinks pg.anchor_hrefs :=
    mem_collectSocialLinks pg.anchor_hrefs href hm hdom hlen
  have hnd : (collectSocialLinks pg.anchor_hrefs).Nodup :=
    nodup_foldl_socialStep pg.anchor_hrefs [] List.nodup_nil
  have hne : (collectSocialLinks pg.anchor_hrefs).isEmpty = false := by
    cases hc : collectSocialLinks pg.anchor_hrefs with
    | nil => rw [hc] at hmem; cases hmem
    | cons a l => rfl
  exact ⟨collectSocialLinks pg.anchor_hrefs, by simp [analyze_business_website, hne], hmem, hnd⟩

/-- Witness for C7 at a concrete page. -/
theorem claim_C7_witness :
    ∃ l, (analyze_business_website "u"
      (FetchOutcome.page ⟨none, none, [], [], ["https://facebook.com/acme"]⟩)).detected_social_links =
        some l ∧ "https://facebook.com/acme" ∈ l ∧ l.Nodup :=
  claim_C7 "u" ⟨none, none, [], [], ["https://facebook.com/acme"]⟩ "https://facebook.com/acme"
    (by decide) (by decide) (by decide)

/-- The empty-excerpt fallback: the Python `or "Not found"` fires exactly
when the concatenated paragraph text is empty. -/
theorem textSample_fallback_eq (tc : String) :
    (if (pyTake 500 tc ++ (if 500 < tc.length then "..." else "")) = "" then ("Not found" : String)
     else pyTake 500 tc ++ (if 500 < tc.length then "..." else "")) =
    (if tc = "" then "Not found" else pyTake 500 tc ++ (if 500 < tc.length then "..." else "")) := by
  by_cases h : tc = ""
  · subst h; rfl
  · rw [if_neg h]
    rw [if_neg ?_]
    intro hcontra
    have hdat : (pyTake 500 tc).data ++ (if 500 < tc.length then "..." else "").data = [] := by
      rw [← String.data_append, hcontra]
    have h5 : tc.data.take 500 = [] := by
      have := (List.append_eq_nil.mp hdat).1
      simpa [pyTake] using this
    rcases List.take_eq_nil_iff.mp h5 with h500 | hnil
    · exact absurd h500 (by decide)
    · exact h (String.ext hnil)

/-- C6 as written is false: a reachable page with no paragraph text yields
the placeholder excerpt `"Not found"`, not the (empty) first 500 characters
of the concatenation. -/
theorem claim_C6_counterexample :
    (analyze_business_website "https://example.com"
      (FetchOutcome.page ⟨none, none, [], [], []⟩)).status = "success" ∧
    joinSpace ((([] : List String).take 10).map pyStrip) = "" ∧
    (analyze_business_website "https://example.com"
      (FetchOutcome.page ⟨none, none, [], [], []⟩)).text_content_sample = some "Not found" ∧
    some ("Not found" : String) ≠
      some (pyTake 500 (joinSpace ((([] : List String).take 10).map pyStrip)) ++ "") := by
  decide

/-- C6 amended: no exception escapes (the status is always success or
error); an unreachable URL or a parse failure yields an error status with a
human-readable error string; a reachable page yields a success status with
at most 10 headings and an excerpt that is the first 500 characters of the
concatenated stripped paragraph texts plus `"..."` exactly when that
concatenation exceeds 500 characters — except that an empty concatenation
yields the placeholder `"Not found"`. -/
theorem claim_C6 (url : String) (outcome : FetchOutcome) :
    ((analyze_business_website url outcome).status = "success" ∨
     (analyze_business_website url outcome).status = "error") ∧
    (∀ e, outcome = FetchOutcome.requestError e →
      (analyze_business_website url outcome).status = "error" ∧
      (analyze_business_website url outcome).error =
        some ("Network/HTTP error analyzing " ++ url ++ ": " ++ e)) ∧
    (∀ e, outcome = FetchOutcome.parseFailure e →
      (analyze_business_website url outcome).status = "error" ∧
      (analyze_business_website url outcome).error =
        some ("Failed to parse content from " ++ url ++ ": " ++ e)) ∧
    (∀ pg, outcome = FetchOutcome.page pg →
      (analyze_business_website url outcome).status = "success" ∧
      (∃ hs, (analyze_business_website url outcome).headings_sample = some hs ∧
        hs.length ≤ 10) ∧
      (analyze_business_website url outcome).text_content_sample =
        some (if joinSpace ((pg.paragraphs.take 10).map pyStrip) = "" then "Not found"
              else pyTake 500 (joinSpace ((pg.paragraphs.take 10).map pyStrip)) ++
                (if 500 < (joinSpace ((pg.paragraphs.take 10).map pyStrip)).length
                 then "..." else ""))) := by
  cases outcome with
  | requestError e =>
      refine ⟨Or.inr rfl, ?_, ?_, ?_⟩
      · intro e' he; cases he; exact ⟨rfl, rfl⟩
      · intro e' he; exact nomatch he
      · intro pg h; exact nomatch h
  | parseFailure e =>
      refine ⟨Or.inr rfl, ?_, ?_, ?_⟩
      · intro e' he; exact nomatch he
      · intro e' he; cases he; exact ⟨rfl, rfl⟩
      · intro pg h; exact nomatch h
  | page pg =>
      refine ⟨Or.inl rfl, ?_, ?_, ?_⟩
      · intro e' he; exact nomatch he
      · intro e' he; exact nomatch he
      intro pg' h
      cases h
      refine ⟨rfl, ?_, ?_⟩
      · refine ⟨if ((pg.headings.take 10).map pyStrip).isEmpty then ["Not found"]
          else (pg.headings.take 10).map pyStrip, rfl, ?_⟩
        by_cases hh : ((pg.headings.take 10).map pyStrip).isEmpty
        · rw [if_pos hh]; decide
        · rw [if_neg hh]
          calc ((pg.headings.take 10).map pyStrip).length
              = (pg.headings.take 10).length := List.length_map _ _
            _ ≤ 10 := List.length_take_le 10 pg.headings
      · show some _ = some _
        congr 1
        exact textSample_fallback_eq (joinSpace ((pg.paragraphs.take 10).map pyStrip))

/-- Witness for C6 at a concrete unreachable URL. -/
theorem claim_C6_witness :
    (analyze_business_website "https://down.example"
      (FetchOutcome.requestError "connect timeout")).status = "error" ∧
    (analyze_business_website "https://down.example"
      (FetchOutcome.requestError "connect timeout")).error =
      some ("Network/HTTP error analyzing " ++ "https://down.example" ++ ": " ++ "connect timeout") :=
  (claim_C6 "https://down.example" (FetchOutcome.requestError "connect timeout")).2.1
    "connect timeout" rfl

/-- C8 as written is false: an empty provider response is reported with
success status plus a warning, not with error status. -/
theorem claim_C8_counterexample :
    (google_trends_analyzer ["solar panels"] "today 3-m" TrendsOutcome.emptyData).status =
      "success" ∧
    (google_trends_analyzer ["solar panels"] "today 3-m" TrendsOutcome.emptyData).status ≠
      "error" ∧
    (google_trends_analyzer ["solar panels"] "today 3-m" TrendsOutcome.emptyData).warning =
      some "Received empty or invalid data from Pytrends." := by
  refine ⟨rfl, ?_, rfl⟩
  decide

/-- C8 amended: no exception escapes (the status is always success or
error); a missing pytrends/pandas dependency yields an error status; an
empty provider response yields a success status carrying a warning and a
no-data summary; the status is error exactly when the dependency is
missing, the provider call raises, or an unexpected exception occurs —
all of which are runs where no keyword resolves to data. -/
theorem claim_C8 (keywords : List String) (timeframe : String) (outcome : TrendsOutcome) :
    ((google_trends_analyzer keywords timeframe outcome).status = "success" ∨
     (google_trends_analyzer keywords timeframe outcome).status = "error") ∧
    (outcome = TrendsOutcome.depsMissing →
      (google_trends_analyzer keywords timeframe outcome).status = "error" ∧
      (google_trends_analyzer keywords timeframe outcome).error =
        some "Pytrends library or pandas is not available. Install with: pip install pytrends pandas.") ∧
    (outcome = TrendsOutcome.emptyData →
      (google_trends_analyzer keywords timeframe outcome).status = "success" ∧
      (google_trends_analyzer keywords timeframe outcome).warning =
        some "Received empty or invalid data from Pytrends." ∧
      (google_trends_analyzer keywords timeframe outcome).interest_over_time_summary =
        some "No interest over time data found.") ∧
    ((google_trends_analyzer keywords timeframe outcome).status = "error" ↔
      (outcome = TrendsOutcome.depsMissing ∨ (∃ e, outcome = TrendsOutcome.apiFailure e) ∨
       (∃ e, outcome = TrendsOutcome.unexpected e))) := by
  cases outcome with
  | depsMissing =>
      refine ⟨Or.inr rfl, ?_, ?_, ?_⟩
      · intro h; exact ⟨rfl, rfl⟩
      · intro h; exact nomatch h
      · exact ⟨fun _ => Or.inl rfl, fun _ => rfl⟩
  | apiFailure e =>
      refine ⟨Or.inr rfl, ?_, ?_, ?_⟩
      · intro h; exact nomatch h
      · intro h; exact nomatch h
      · exact ⟨fun _ => Or.inr (Or.inl ⟨e, rfl⟩), fun _ => rfl⟩
  | emptyData =>
      refine ⟨Or.inl rfl, ?_, ?_, ?_⟩
      · intro h; exact nomatch h
      · intro h; exact ⟨rfl, rfl, rfl⟩
      · constructor
        · intro h
          have hse : ("success" : String) = "error" := h
          exact absurd hse (by decide)
        · rintro (h | ⟨e, h⟩ | ⟨e, h⟩) <;> exact nomatch h
  | unexpected e =>
      refine ⟨Or.inr rfl, ?_, ?_, ?_⟩
      · intro h; exact nomatch h
      · intro h; exact nomatch h
      · exact ⟨fun _ => Or.inr (Or.inr ⟨e, rfl⟩), fun _ => rfl⟩
  | data columns =>
      have hfetch : ∃ smry w, fetch_trends_sync keywords (TrendsOutcome.data columns) =
          Except.ok (FetchedTrendsData.summary smry w) := by
        simp only [fetch_trends_sync]
        split
        · exact ⟨_, _, rfl⟩
        · exact ⟨_, _, rfl⟩
      obtain ⟨smry, w, hfetch⟩ := hfetch
      have hstat : (google_trends_analyzer keywords timeframe (TrendsOutcome.data columns)).status =
          "success" := by
        unfold google_trends_analyzer
        rw [hfetch]
      refine ⟨Or.inl hstat, ?_, ?_, ?_⟩
      · intro h; exact nomatch h
      · intro h; exact nomatch h
      · constructor
        · intro h; rw [hstat] at h; exact absurd h (by decide)
        · rintro (h | ⟨e, h⟩ | ⟨e, h⟩) <;> exact nomatch h

/-- Witness for C8 at a concrete missing-dependency run. -/
theorem claim_C8_witness :
    (google_trends_analyzer ["ads"] "today 3-m" TrendsOutcome.depsMissing).status = "error" ∧
    (google_trends_analyzer ["ads"] "today 3-m" TrendsOutcome.depsMissing).error =
      some "Pytrends library or pandas is not available. Install with: pip install pytrends pandas." :=
  (claim_C8 ["ads"] "today 3-m" TrendsOutcome.depsMissing).2.1 rfl

/-- C9: on a non-empty numeric series the per-keyword summary is labelled
`Increasing` exactly when the last sample exceeds 1.05 times the first,
`Decreasing` exactly when the first exceeds 1.05 times the last, and
`Stable` otherwise (samples are the provider's non-negative interest
scores). -/
theorem claim_C9 (s : List ℚ) (first_val last_val : ℚ)
    (hh : s.head? = some first_val) (hl : s.getLast? = some last_val)
    (h1 : 0 ≤ first_val) (h2 : 0 ≤ last_val) :
    summaryPoint s =
      trendChangeLabel first_val last_val ++ " trend (relative score: first=" ++
        fmtOneDecimal first_val ++ ", last=" ++ fmtOneDecimal last_val ++ ")" ∧
    (trendChangeLabel first_val last_val = "Increasing" ↔ last_val > first_val * 1.05) ∧
    (trendChangeLabel first_val last_val = "Decreasing" ↔ first_val > last_val * 1.05) ∧
    (trendChangeLabel first_val last_val = "Stable" ↔
      (¬last_val > first_val * 1.05 ∧ ¬first_val > last_val * 1.05)) := by
  refine ⟨by rw [summaryPoint, hh, hl], ?_, ?_, ?_⟩
  · unfold trendChangeLabel
    by_cases hI : last_val > first_val * 1.05
    · simp [hI]
    · rw [if_neg hI]
      by_cases hD : first_val > last_val * 1.05 <;> simp [hD, hI]
  · unfold trendChangeLabel
    by_cases hI : last_val > first_val * 1.05
    · rw [if_pos hI]
      constructor
      · intro h; exact absurd h (by decide)
      · intro hD; exfalso; linarith
    · rw [if_neg hI]
      by_cases hD : first_val > last_val * 1.05 <;> simp [hD]
  · unfold trendChangeLabel
    by_cases hI : last_val > first_val * 1.05
    · simp [hI]
    · rw [if_neg hI]
      by_cases hD : first_val > last_val * 1.05 <;> simp [hD, hI]

/-- Witness for C9 at a concrete increasing series. -/
theorem claim_C9_witness :
    summaryPoint [(1 : ℚ), 2] =
      trendChangeLabel 1 2 ++ " trend (relative score: first=" ++
        fmtOneDecimal 1 ++ ", last=" ++ fmtOneDecimal 2 ++ ")" ∧
    (trendChangeLabel (1 : ℚ) 2 = "Increasing" ↔ (2 : ℚ) > 1 * 1.05) ∧
    (trendChangeLabel (1 : ℚ) 2 = "Decreasing" ↔ (1 : ℚ) > 2 * 1.05) ∧
    (trendChangeLabel (1 : ℚ) 2 = "Stable" ↔
      (¬(2 : ℚ) > 1 * 1.05 ∧ ¬(1 : ℚ) > 2 * 1.05)) :=
  claim_C9 [(1 : ℚ), 2] 1 2 (by decide) (by decide) (by norm_num) (by norm_num)

/-- C3: on the finalize path, a structured-output call that returns a
`MarketingMediaPlan` makes the controller produce exactly one agent message,
tagged with the finalize marker `"FinalPlanOutput"`, whose content
round-trips: parsing the content back into a plan and re-serialising it
with the same encoder yields text identical to the message content. -/
theorem claim_C3 (sp : String) (msgs : List Message) (p : MarketingMediaPlan)
    (co : ContinueResponse)
    (hfin : shouldFinalize (ensureSystemPrompt sp msgs) = true) :
    agent_node sp msgs (FinalizeOutcome.plan p) co = [finalPlanMessage p] ∧
    (finalPlanMessage p).nameTag = some "FinalPlanOutput" ∧
    (model_validate_json (finalPlanMessage p).content).map model_dump_json =
      some ((finalPlanMessage p).content) := by
  refine ⟨by simp [agent_node, hfin], rfl, ?_⟩
  show (model_validate_json (model_dump_json p)).map model_dump_json =
    some (model_dump_json p)
  rw [model_validate_round]
  rfl

theorem claim_C3_witness :
    agent_node "S" [Message.human "hi", Message.ai "draft" none [], Message.human "yes"]
        (FinalizeOutcome.plan samplePlan) ⟨"x", []⟩ = [finalPlanMessage samplePlan] ∧
    (finalPlanMessage samplePlan).nameTag = some "FinalPlanOutput" ∧
    (model_validate_json (finalPlanMessage samplePlan).content).map model_dump_json =
      some ((finalPlanMessage samplePlan).content) :=
  claim_C3 "S" [Message.human "hi", Message.ai "draft" none [], Message.human "yes"]
    samplePlan ⟨"x", []⟩ (by decide)

end MarketingAgent
